import Mathlib

/-!
Verification of the SNAP FASTQ ingestion layer (`SNAPLib/FASTQ.cpp`,
`SNAPLib/Read.h`) through a shallow embedding.  Buffers are lists of
characters; the data readers guarantee a terminating null byte after the
valid bytes, which the embedding models by letting out-of-range reads
return the null character.
-/

set_option maxHeartbeats 1000000

namespace Snap

/-- Null byte.  The DataReader contract guarantees a 0 byte directly after the
valid bytes of a buffer; the scanning code in FASTQ.cpp relies on it. -/
def nul : Char := Char.ofNat 0

/-- Byte at index `i` of a buffer; reading at or past the end yields the
terminating null byte, as in the C buffers. -/
def charAt (buf : List Char) (i : Nat) : Char := buf.getD i nul

/-- The base alphabet accepted by the scan loop of
`FASTQReader::skipPartialRecord` (FASTQ.cpp lines 154-158): `A C T G N`
and lower-case `a c t g` (lower-case `n` is absent in the source). -/
def isCodeBase (c : Char) : Bool :=
  c == 'A' || c == 'C' || c == 'T' || c == 'G' || c == 'N' ||
  c == 'a' || c == 'c' || c == 't' || c == 'g'

/-- Index of the first newline among the valid bytes
(`util::strnchr(buffer, (backslash n), validBytes)`). -/
def findNl : List Char → Option Nat
  | [] => none
  | c :: cs => if c = '\n' then some 0 else Option.map (· + 1) (findNl cs)

/-- Length of the maximal prefix of `isCodeBase` characters: the scan over the
prospective base-sequence line at FASTQ.cpp lines 153-158.  The C loop stops
at the terminating null at the latest, which corresponds to stopping at the
end of the list. -/
def scanLen : List Char → Nat
  | [] => 0
  | c :: cs => if isCodeBase c then scanLen cs + 1 else 0

/-- The lookahead test of `skipPartialRecord` applied after the candidate
line's newline: `t` is the buffer from the prospective base-sequence line on.
Mirrors FASTQ.cpp lines 149-181: scan base characters, skip one optional
carriage return, require a newline and then a `+`.  (In the source the two
failing sub-tests branch to the same continuation, so they are combined into
one conjunction here.) -/
def acceptTest (t : List Char) : Bool :=
  let j := scanLen t
  let j2 := if charAt t j = '\r' then j + 1 else j
  (charAt t j2 == '\n') && (charAt t (j2 + 1) == '+')

/-- The candidate loop of `FASTQReader::skipPartialRecord` (FASTQ.cpp lines
132-183), with fuel making the recursion structural.  `rem` is the buffer from
the current candidate on; the result is the accepted candidate's offset
relative to `rem`, or `none` when the loop exhausts the buffer (including the
case where no newline follows the candidate, line 139-142).  The bounds check
of line 133 coincides with `findNl [] = none`. -/
def sprGoF : Nat → List Char → Option Nat
  | 0, _ => none
  | fuel + 1, rem =>
    match findNl rem with
    | none => none
    | some n =>
      if charAt rem 0 = '@' ∧ acceptTest (rem.drop (n + 1)) then some 0
      else Option.map (· + (n + 1)) (sprGoF fuel (rem.drop (n + 1)))

/-- The candidate loop run with enough fuel (each iteration drops at least one
byte, so `length + 1` steps always suffice). -/
def sprRun (rem : List Char) : Option Nat := sprGoF (rem.length + 1) rem

namespace FASTQReader

/-- `FASTQReader::skipPartialRecord` (FASTQ.cpp lines 114-187) on the window of
valid bytes starting at the reader's current offset.  Returns the number of
bytes the cursor is advanced by (`firstLineCandidate - buffer`) on success and
`none` on failure.  The initial candidate is the buffer start when it is `@`,
otherwise the byte following the first newline (line 127-130); when the buffer
holds no newline at all the C code has no candidate to try and fails. -/
def skipPartialRecord (buf : List Char) : Option Nat :=
  if charAt buf 0 = '@' then sprRun buf
  else
    match findNl buf with
    | none => none
    | some n => Option.map (· + (n + 1)) (sprRun (buf.drop (n + 1)))

end FASTQReader

/-- A four-line FASTQ record, by line contents (no terminators). -/
structure FqRecord where
  hdr : List Char
  bases : List Char
  plus : List Char
  qual : List Char
deriving DecidableEq

/-- The bytes of a record: four newline-terminated lines. -/
def recBytes (r : FqRecord) : List Char :=
  r.hdr ++ '\n' :: (r.bases ++ '\n' :: (r.plus ++ '\n' :: (r.qual ++ ['\n'])))

/-- The bytes of a sequence of records. -/
def flatRecs (rs : List FqRecord) : List Char := (rs.map recBytes).flatten

/-- Well-formedness of a record for the boundary-recovery theorems: each line
is a non-empty newline-free line, the header starts with `@`, the plus line
with `+`, and the base line consists of characters the skipPartialRecord scan
accepts. -/
def wfRecord (r : FqRecord) : Prop :=
  r.hdr ≠ [] ∧ charAt r.hdr 0 = '@' ∧ '\n' ∉ r.hdr ∧
  r.bases ≠ [] ∧ (∀ c ∈ r.bases, isCodeBase c = true) ∧
  r.plus ≠ [] ∧ charAt r.plus 0 = '+' ∧ '\n' ∉ r.plus ∧
  r.qual ≠ [] ∧ '\n' ∉ r.qual

instance (r : FqRecord) : Decidable (wfRecord r) := by
  unfold wfRecord; infer_instance

/-- Offset of the quality line inside `recBytes r` (the only line other than
the header that may legitimately start with `@`). -/
def qualStart (r : FqRecord) : Nat :=
  r.hdr.length + r.bases.length + r.plus.length + 3

/-- Printable ASCII (`!` through `~`), the characters set in row 2 of
`isValidStartingCharacterForNextLine` (FASTQ.cpp lines 314-316). -/
def printableAscii (c : Char) : Bool := decide ('!' ≤ c) && decide (c ≤ '~')

/-- Row 0 of `isValidStartingCharacterForNextLine`: the characters of
"ACTGNURYKMSWBDHVNX" in either case (FASTQ.cpp lines 296-299). -/
def supportedBase (c : Char) : Bool :=
  (("ACTGNURYKMSWBDHVNX").toList).contains c ||
  (("actgnurykmswbdhvnx").toList).contains c

/-- `FASTQReader::isValidStartingCharacterForNextLine` as built by
`FASTQReader::_init::_init` (FASTQ.cpp lines 280-317): row 3 holds for `@`
(descriptor line), row 0 for a supported base character (read line), row 1
for `+` (separator line), row 2 for printable ASCII (quality line). -/
def validStartRow (row : Nat) (c : Char) : Bool :=
  if row = 3 then c == '@'
  else if row = 0 then supportedBase c
  else if row = 1 then c == '+'
  else printableAscii c

/-- The fields `FASTQReader::getReadFromBuffer` extracts for `Read::init`:
`id` is the descriptor line minus its leading `@`; `data` is the base line
(carriage-return stripped); `plusLine` and `qualityLine` are the remaining two
line contents.  Note the source passes the quality line pointer with the
*base* line's length to `Read::init`; the quality line's own length is never
compared to anything. -/
structure FqParsed where
  id : List Char
  data : List Char
  plusLine : List Char
  qualityLine : List Char
deriving DecidableEq

/-- Result of one line of `FASTQReader::getReadFromBuffer`:
fatal (`soft_exit(1)`), the `return false` taken for a lone trailing DOS
end-of-file byte 0x1a at end-of-input (FASTQ.cpp lines 231-234), or the
stripped line content together with the scan position of the next line. -/
inductive LineResult where
  | fatal : LineResult
  | ctrlZ : LineResult
  | ok : List Char → Nat → LineResult
deriving DecidableEq

/-- One iteration of the line loop of `FASTQReader::getReadFromBuffer`
(FASTQ.cpp lines 227-259).  `scan` is the current scan offset into the valid
bytes, `row` the `isValidStartingCharacterForNextLine` row `(i+3) % 4`:
find the newline (else the 0x1a check, then fatal); reject an empty line;
reject a bad starting character; strip one trailing carriage return from the
line length; step past the newline, skipping one carriage return directly
after it. -/
def parseLine (buf : List Char) (eof : Bool) (row : Nat) (scan : Nat) : LineResult :=
  match findNl (buf.drop scan) with
  | none =>
    if buf.length - scan = 1 ∧ charAt buf scan = Char.ofNat 26 ∧ eof then .ctrlZ
    else .fatal
  | some lineLen =>
    if lineLen = 0 then .fatal
    else if ¬ validStartRow row (charAt buf scan) then .fatal
    else
      let stripped := lineLen - (if charAt buf (scan + lineLen - 1) = '\r' then 1 else 0)
      let content := (buf.drop scan).take stripped
      let next := scan + lineLen + (if charAt buf (scan + lineLen + 1) = '\r' then 2 else 1)
      .ok content next

/-- Result of `FASTQReader::getReadFromBuffer`: a fatal exit, the `return
false` for a lone trailing 0x1a at end-of-input, or the parsed fields plus
the number of bytes consumed (`scan - buffer`). -/
inductive ParseResult where
  | fatal : ParseResult
  | ctrlZ : ParseResult
  | ok : FqParsed → Nat → ParseResult
deriving DecidableEq

namespace FASTQReader

/-- `FASTQReader::getReadFromBuffer` (FASTQ.cpp lines 217-269): parse four
lines with rows `(i+3) % 4 = 3, 0, 1, 2` and assemble the fields handed to
`Read::init` (line 261-262: the id drops the leading `@`). -/
def getReadFromBuffer (buf : List Char) (eof : Bool) : ParseResult :=
  match parseLine buf eof 3 0 with
  | .fatal => .fatal
  | .ctrlZ => .ctrlZ
  | .ok l0 s1 =>
    match parseLine buf eof 0 s1 with
    | .fatal => .fatal
    | .ctrlZ => .ctrlZ
    | .ok l1 s2 =>
      match parseLine buf eof 1 s2 with
      | .fatal => .fatal
      | .ctrlZ => .ctrlZ
      | .ok l2 s3 =>
        match parseLine buf eof 2 s3 with
        | .fatal => .fatal
        | .ctrlZ => .ctrlZ
        | .ok l3 s4 => .ok ⟨l0.drop 1, l1, l2, l3⟩ s4

end FASTQReader

/-- Result of `FASTQReader::getNextRead`: `noMore` is the `return false` when
the data source is exhausted; `got` carries the parsed record and the bytes
consumed.  `got none 0` is the degenerate path where `getReadFromBuffer`
returned `false` (the 0x1a case): the C code then advances 0 bytes and
returns `true` with the caller's Read not updated. -/
inductive ReadStep where
  | noMore : ReadStep
  | fatal : ReadStep
  | got : Option FqParsed → Nat → ReadStep
deriving DecidableEq

namespace FASTQReader

/-- `FASTQReader::getNextRead` (FASTQ.cpp lines 195-215) on the window of
remaining valid bytes (an empty window models `getData` failing with
`nextBatch` also exhausted). -/
def getNextRead (rem : List Char) (eof : Bool) : ReadStep :=
  if rem = [] then .noMore
  else
    match getReadFromBuffer rem eof with
    | .fatal => .fatal
    | .ctrlZ => .got none 0
    | .ok p n => .got (some p) n

end FASTQReader

/-- Result of `PairedFASTQReader::getNextReadPair`: both readers produced a
record (`return true`), both were exhausted (`return false`), or the fatal
"The FASTQ files may not match properly" divergence exit; `fatalParse` is a
fatal exit inside one of the single readers. -/
inductive PairResult where
  | fatalParse : PairResult
  | filesDontMatch : PairResult
  | pairTrue : Option FqParsed → Option FqParsed → PairResult
  | pairFalse : PairResult
deriving DecidableEq

namespace PairedFASTQReader

/-- `PairedFASTQReader::getNextReadPair` (FASTQ.cpp lines 511-522):
`worked = readers[0]->getNextRead(read0)`, then a fatal exit if
`readers[1]->getNextRead(read1)` disagrees with `worked`, else return
`worked`.  The two windows model the two underlying single-file readers. -/
def getNextReadPair (rem0 rem1 : List Char) (eof0 eof1 : Bool) : PairResult :=
  match FASTQReader.getNextRead rem0 eof0 with
  | .fatal => .fatalParse
  | .noMore =>
    match FASTQReader.getNextRead rem1 eof1 with
    | .fatal => .fatalParse
    | .noMore => .pairFalse
    | .got _ _ => .filesDontMatch
  | .got p0 _ =>
    match FASTQReader.getNextRead rem1 eof1 with
    | .fatal => .fatalParse
    | .noMore => .filesDontMatch
    | .got p1 _ => .pairTrue p0 p1

end PairedFASTQReader

/-- `memcmp(id + idLength - 2, "/c", 2) == 0` together with the
`getIdLength() < 2` guard, as used by
`PairedInterleavedFASTQReader::getNextReadPair` (FASTQ.cpp lines 378-386). -/
def idEndsWith (p : FqParsed) (c : Char) : Bool :=
  decide (2 ≤ p.id.length) && (p.id.drop (p.id.length - 2) == ['/', c])

/-- Result of `PairedInterleavedFASTQReader::getNextReadPair`: end of input
(`return false`), a fatal parse exit, the stale 0x1a path (the C code would
go on with an uninitialized Read; not modelled further), the
"odd number of reads" diagnostic followed by `return false`, the two
suffix-mismatch fatal exits, or a successful pair with the remaining
window. -/
inductive IPairResult where
  | noMore : IPairResult
  | fatalParse : IPairResult
  | ctrlZStale : IPairResult
  | oddWarning : IPairResult
  | fatalNoSlash1 : IPairResult
  | fatalNoSlash2 : IPairResult
  | pair : FqParsed → FqParsed → List Char → IPairResult
deriving DecidableEq

namespace PairedInterleavedFASTQReader

/-- `PairedInterleavedFASTQReader::getNextReadPair` (FASTQ.cpp lines 352-390):
parse a first record; if it consumed every valid byte, print the
"odd number of reads.  Ignoring the last one." diagnostic and return false;
otherwise parse the second record, then fatally exit unless the ids end with
`/1` and `/2` respectively; advance past both. -/
def getNextReadPair (rem : List Char) (eof : Bool) : IPairResult :=
  if rem = [] then .noMore
  else
    match FASTQReader.getReadFromBuffer rem eof with
    | .fatal => .fatalParse
    | .ctrlZ => .ctrlZStale
    | .ok p0 c0 =>
      if c0 = rem.length then .oddWarning
      else
        match FASTQReader.getReadFromBuffer (rem.drop c0) eof with
        | .fatal => .fatalParse
        | .ctrlZ => .ctrlZStale
        | .ok p1 c1 =>
          if ¬ idEndsWith p0 '1' then .fatalNoSlash1
          else if ¬ idEndsWith p1 '2' then .fatalNoSlash2
          else .pair p0 p1 (rem.drop (c0 + c1))

end PairedInterleavedFASTQReader

/-- Result of `PairedInterleavedFASTQReader::reinit`: the positioned window
(`ready`), or one of its fatal exits; `ctrlZStale` again marks the
0x1a path (uninitialized Read in the source, not modelled further). -/
inductive ReinitResult where
  | ready : List Char → ReinitResult
  | fatalBadSuffix : ReinitResult
  | fatalEndsMidPair : ReinitResult
  | fatalOrphanNotFollowedBySlash1 : ReinitResult
  | fatalParse : ReinitResult
  | ctrlZStale : ReinitResult
deriving DecidableEq

namespace PairedInterleavedFASTQReader

/-- The suffix test of `PairedInterleavedFASTQReader::reinit` at FASTQ.cpp
line 420: id length at least 2, the second-to-last character `/`, the last
`1` or `2`. -/
def reinitSuffixOk (p : FqParsed) : Prop :=
  2 ≤ p.id.length ∧ charAt p.id (p.id.length - 2) = '/' ∧
    (charAt p.id (p.id.length - 1) = '1' ∨ charAt p.id (p.id.length - 1) = '2')

instance (p : FqParsed) : Decidable (reinitSuffixOk p) := by
  unfold reinitSuffixOk; infer_instance

/-- The peek phase of `PairedInterleavedFASTQReader::reinit` (FASTQ.cpp lines
411-444), run on the window after boundary recovery: peek the first record;
a suffix that is neither `/1` nor `/2` is fatal; a `/2` record is an orphan —
the cursor advances past it, and the following record is peeked and must
carry `/1` (fatal otherwise, and fatal when the window ends right after the
orphan); a `/1` record is left in place unconsumed. -/
def reinitPeek (buf1 : List Char) (eof : Bool) : ReinitResult :=
  if buf1 = [] then .ready buf1
  else
    match FASTQReader.getReadFromBuffer buf1 eof with
    | .fatal => .fatalParse
    | .ctrlZ => .ctrlZStale
    | .ok p c =>
      if reinitSuffixOk p then
        if charAt p.id (p.id.length - 1) = '2' then
          let buf2 := buf1.drop c
          if buf2 = [] then .fatalEndsMidPair
          else
            match FASTQReader.getReadFromBuffer buf2 eof with
            | .fatal => .fatalParse
            | .ctrlZ => .ctrlZStale
            | .ok p2 _ =>
              if 2 ≤ p2.id.length ∧ charAt p2.id (p2.id.length - 2) = '/' ∧
                  charAt p2.id (p2.id.length - 1) = '1' then .ready buf2
              else .fatalOrphanNotFollowedBySlash1
        else .ready buf1
      else .fatalBadSuffix

/-- `PairedInterleavedFASTQReader::reinit` (FASTQ.cpp lines 392-445) on the
window of valid bytes at `startingOffset`.  For a non-zero offset it first
runs boundary recovery (returning with the window unmoved when that fails),
then runs the peek phase `reinitPeek`. -/
def reinit (buf : List Char) (startingOffset : Int) (eof : Bool) : ReinitResult :=
  if buf = [] then .ready []
  else
    match
      (if startingOffset ≠ 0 then
        Option.map (fun adv => buf.drop adv) (FASTQReader.skipPartialRecord buf)
      else some buf) with
    | none => .ready buf
    | some buf1 => reinitPeek buf1 eof

/-- Repeatedly call `getNextReadPair`, collecting the pairs produced until a
non-pair outcome (or fuel runs out). -/
def run (fuel : Nat) (rem : List Char) (eof : Bool) :
    List (FqParsed × FqParsed) × IPairResult :=
  match fuel with
  | 0 => ([], .noMore)
  | f + 1 =>
    match getNextReadPair rem eof with
    | .pair p0 p1 rest =>
      let next := run f rest eof
      ((p0, p1) :: next.1, next.2)
    | out => ([], out)

end PairedInterleavedFASTQReader

/-- C `unsigned` subtraction.  For representable operands (`a, b < 2^32`) this
equals the two's-complement wrap-around of the source; when no underflow
occurs it is plain subtraction. -/
def usub (a b : Nat) : Nat :=
  if b ≤ a then a - b else (a + (2 ^ 32 - b % 2 ^ 32)) % 2 ^ 32

/-- `enum ReadClippingType` of Read.h line 87. -/
inductive ReadClippingType where
  | NoClipping : ReadClippingType
  | ClipFront : ReadClippingType
  | ClipBack : ReadClippingType
  | ClipFrontAndBack : ReadClippingType
deriving DecidableEq

/-- Modelled from the spec: the `Direction` type of directions.h (not in the
excerpt), with the two values `FORWARD` and `RC` used by Read.h. -/
inductive Direction where
  | FORWARD : Direction
  | RC : Direction
deriving DecidableEq

/-- Which buffer the `unclippedData` / `unclippedQuality` pointer of a Read
points into: the caller's external memory, the upper-cased copy in the local
buffer, or the reverse-complement strings in the local buffer.  This replaces
the raw pointer aliasing of the source with an explicit tag plus the
byte contents held in the fields below. -/
inductive DataSrc where
  | external : DataSrc
  | upcase : DataSrc
  | rc : DataSrc
deriving DecidableEq

/-- Modelled from the spec: `IS_LOWER_CASE` of Tables.h (not in the excerpt)
holds for the ASCII lower-case letters. -/
def isLowerCaseByte (c : Char) : Bool := decide ('a' ≤ c) && decide (c ≤ 'z')

/-- Modelled from the spec: `TO_UPPER_CASE` of Tables.h (not in the excerpt),
ASCII upper-casing. -/
def toUpperByte (c : Char) : Char :=
  if isLowerCaseByte c then Char.ofNat (c.toNat - 32) else c

/-- Modelled from the spec: the `COMPLEMENT` table of Tables.cpp (not in the
excerpt), mapping each base to its complement.  None of the stated theorems
depends on the table's values. -/
def complementChar (c : Char) : Char :=
  if c = 'A' then 'T' else if c = 'T' then 'A'
  else if c = 'C' then 'G' else if c = 'G' then 'C'
  else if c = 'a' then 't' else if c = 't' then 'a'
  else if c = 'c' then 'g' else if c = 'g' then 'c'
  else c

/-- The `Read` class of Read.h, restricted to the state its data operations
(`init`, `clip`, `becomeRC`) touch.  Pointers into buffers are represented by
a source tag (`dataSrc`/`qualSrc` for `unclippedData`/`unclippedQuality`)
plus offsets (`dataOffset`/`qualOffset` for `data - unclippedData` and
`quality - unclippedQuality`); the local buffer's live contents are the
`upcaseForwardRead`, `rcData` and `rcQuality` caches. -/
@[ext]
structure Read where
  id : List Char
  externalData : List Char
  externalQuality : List Char
  upcaseForwardRead : Option (List Char)
  rcData : Option (List Char)
  rcQuality : Option (List Char)
  localBufferAllocationOffset : Nat
  dataSrc : DataSrc
  qualSrc : DataSrc
  dataOffset : Nat
  qualOffset : Nat
  frontClippedLength : Nat
  dataLength : Nat
  unclippedLength : Nat
  clippingState : ReadClippingType
  currentReadDirection : Direction
  originalAlignedLocation : Nat
  originalMAPQ : Nat
  originalSAMFlags : Nat
  originalFrontClipping : Nat
  originalBackClipping : Nat
  originalFrontHardClipping : Nat
  originalBackHardClipping : Nat
  originalRNEXT : List Char
  originalPNEXT : Nat
deriving DecidableEq

namespace Read

/-- The bytes `unclippedData` points at. -/
def unclippedDataBytes (r : Read) : List Char :=
  match r.dataSrc with
  | .external => r.externalData
  | .upcase => r.upcaseForwardRead.getD []
  | .rc => r.rcData.getD []

/-- The bytes `unclippedQuality` points at. -/
def unclippedQualityBytes (r : Read) : List Char :=
  match r.qualSrc with
  | .external => r.externalQuality
  | .upcase => []
  | .rc => r.rcQuality.getD []

/-- The bytes visible through `getData()`: `dataLength` bytes starting at
`data = unclippedData + dataOffset`. -/
def getDataBytes (r : Read) : List Char :=
  (r.unclippedDataBytes.drop r.dataOffset).take r.dataLength

/-- The bytes visible through `getQuality()`. -/
def getQualityBytes (r : Read) : List Char :=
  (r.unclippedQualityBytes.drop r.qualOffset).take r.dataLength

/-- `Read::init` (Read.h lines 347-405).  The data and quality spans are the
lists themselves (pointer plus length in the source).  Every field of the
model is assigned, matching the source, which rewrites all of them: views and
lengths are reset, the local-buffer allocation and the cached derived strings
are cleared, and then — only when the data span holds a lower-case byte — an
upper-cased copy is allocated in the local buffer and the view repointed at
it.  The caller's buffer is never written (`externalData` keeps the supplied
bytes). -/
def init (i_id i_data i_quality : List Char)
    (i_originalAlignedLocation i_originalMAPQ i_originalSAMFlags
     i_originalFrontClipping i_originalBackClipping
     i_originalFrontHardClipping i_originalBackHardClipping : Nat)
    (i_originalRNEXT : List Char) (i_originalPNEXT : Nat) : Read :=
  let anyLowerCase := i_data.any isLowerCaseByte
  { id := i_id
    externalData := i_data
    externalQuality := i_quality
    upcaseForwardRead := if anyLowerCase then some (i_data.map toUpperByte) else none
    rcData := none
    rcQuality := none
    localBufferAllocationOffset := if anyLowerCase then i_data.length else 0
    dataSrc := if anyLowerCase then .upcase else .external
    qualSrc := .external
    dataOffset := 0
    qualOffset := 0
    frontClippedLength := 0
    dataLength := i_data.length
    unclippedLength := i_data.length
    clippingState := .NoClipping
    currentReadDirection := .FORWARD
    originalAlignedLocation := i_originalAlignedLocation
    originalMAPQ := i_originalMAPQ
    originalSAMFlags := i_originalSAMFlags
    originalFrontClipping := i_originalFrontClipping
    originalBackClipping := i_originalBackClipping
    originalFrontHardClipping := i_originalFrontHardClipping
    originalBackHardClipping := i_originalBackHardClipping
    originalRNEXT := i_originalRNEXT
    originalPNEXT := i_originalPNEXT }

/-- The five-argument `Read::init` overload (Read.h lines 337-345), which
passes `-1, -1, 0, 0, 0, 0, 0, NULL, 0, 0`; the two `-1` arguments convert to
`unsigned` as `2^32 - 1`. -/
def init5 (i_id i_data i_quality : List Char) : Read :=
  init i_id i_data i_quality (2 ^ 32 - 1) (2 ^ 32 - 1) 0 0 0 0 0 [] 0

/-- The back-clip loop of `Read::clip` (Read.h lines 466-470): starting from
length `dl`, decrement while positive and the quality byte before the cursor
is the `#` sentinel; returns the remaining length. -/
def backClipLen (q : List Char) : Nat → Nat
  | 0 => 0
  | d + 1 => if charAt q d = '#' then backClipLen q d else d + 1

/-- The front-clip loop of `Read::clip` (Read.h lines 481-484): count leading
`#` quality bytes, stopping at `dl`. -/
def frontClipLen (q : List Char) (dl : Nat) : Nat :=
  min (q.takeWhile (fun c => c = '#')).length dl

/-- The back-clipped length computed by the recompute path of `Read::clip`:
the loop of Read.h lines 466-470 (`dataLength--` while the quality byte
before the cursor is the `#` sentinel) followed by the
maintain-original-clipping adjustment of lines 472-474. -/
def clipDl2 (r : Read) (clipping : ReadClippingType)
    (maintainOriginalClipping : Bool) : Nat :=
  let doBack := clipping = ReadClippingType.ClipBack ∨
    clipping = ReadClippingType.ClipFrontAndBack
  let dl1 := if doBack then backClipLen r.unclippedQualityBytes r.unclippedLength
    else r.unclippedLength
  let backClipping := r.unclippedLength - dl1
  if maintainOriginalClipping ∧ doBack ∧ backClipping < r.originalBackClipping
  then usub dl1 (r.originalBackClipping - backClipping) else dl1

/-- The front-clip amount computed by the recompute path of `Read::clip`:
the loop of Read.h lines 481-484 followed by the `max` adjustment of lines
486-488. -/
def clipFc2 (r : Read) (clipping : ReadClippingType)
    (maintainOriginalClipping : Bool) : Nat :=
  let doFront := clipping = ReadClippingType.ClipFront ∨
    clipping = ReadClippingType.ClipFrontAndBack
  let fc1 := if doFront then
    frontClipLen r.unclippedQualityBytes (clipDl2 r clipping maintainOriginalClipping)
    else 0
  if doFront ∧ maintainOriginalClipping then max fc1 r.originalFrontClipping else fc1

/-- `Read::clip` (Read.h lines 445-498).  An already-matching clipping state
returns immediately; otherwise the view reverts to the unclipped baseline and
is re-clipped: back-clipping first (with the `maintainOriginalClipping`
adjustment, `clipDl2`), then front-clipping (with its `max` adjustment,
`clipFc2`), then the common tail
`dataLength -= frontClippedLength; data += ...; quality += ...`. -/
def clip (r : Read) (clipping : ReadClippingType)
    (maintainOriginalClipping : Bool) : Read :=
  if clipping = r.clippingState then r
  else
    { r with
      dataLength := usub (clipDl2 r clipping maintainOriginalClipping)
        (clipFc2 r clipping maintainOriginalClipping)
      frontClippedLength := clipFc2 r clipping maintainOriginalClipping
      dataOffset := clipFc2 r clipping maintainOriginalClipping
      qualOffset := clipFc2 r clipping maintainOriginalClipping
      clippingState := clipping }

/-- The reverse-complement string computed at Read.h lines 553-556:
`rcData[i] = COMPLEMENT[unclippedData[L - i - 1]]`. -/
def revCompBytes (l : List Char) (L : Nat) : List Char :=
  (List.range L).map (fun i => complementChar (charAt l (L - 1 - i)))

/-- The reversed quality string of the same loop:
`rcQuality[L - i - 1] = unclippedQuality[i]`. -/
def revQualBytes (l : List Char) (L : Nat) : List Char :=
  (List.range L).map (fun i => charAt l (L - 1 - i))

/-- `Read::becomeRC` (Read.h lines 522-581).  From RC, switch back to the
forward strings (the upper-cased copy when one exists, else the external
data, and the external quality).  From forward, switch to the cached
reverse-complement strings, computing and caching them on first use.  In both
cases the clipping then reverses
(`frontClippedLength = unclippedLength - dataLength - frontClippedLength`,
unsigned) and the original front/back clipping and hard-clipping amounts
swap. -/
def becomeRC (r : Read) : Read :=
  let r1 :=
    if r.currentReadDirection = .RC then
      { r with
        dataSrc := if r.upcaseForwardRead.isSome then DataSrc.upcase else DataSrc.external
        qualSrc := .external
        currentReadDirection := .FORWARD }
    else
      if r.rcData.isSome then
        { r with dataSrc := .rc, qualSrc := .rc, currentReadDirection := .RC }
      else
        { r with
          rcData := some (revCompBytes r.unclippedDataBytes r.unclippedLength)
          rcQuality := some (revQualBytes r.unclippedQualityBytes r.unclippedLength)
          localBufferAllocationOffset :=
            r.localBufferAllocationOffset + 2 * r.unclippedLength
          dataSrc := .rc
          qualSrc := .rc
          currentReadDirection := .RC }
  let fc := usub (usub r1.unclippedLength r1.dataLength) r1.frontClippedLength
  { r1 with
    frontClippedLength := fc
    dataOffset := fc
    qualOffset := fc
    originalFrontClipping := r1.originalBackClipping
    originalBackClipping := r1.originalFrontClipping
    originalFrontHardClipping := r1.originalBackHardClipping
    originalBackHardClipping := r1.originalFrontHardClipping }

end Read

/-- Well-formedness of a `Read` as established by `init` and preserved by the
data operations: the invariant of the spec (in its closed-span form), the
pointer fields kept consistent (`data = unclippedData + frontClippedLength`),
buffer lengths matching `unclippedLength` (so `unsigned` arithmetic in the
source, `< 2^32`, is faithfully mirrored), and the direction dictating which
buffers the views point at. -/
def wfRead (r : Read) : Prop :=
  r.frontClippedLength + r.dataLength ≤ r.unclippedLength ∧
  r.dataOffset = r.frontClippedLength ∧
  r.qualOffset = r.frontClippedLength ∧
  r.unclippedLength < 2 ^ 32 ∧
  r.externalData.length = r.unclippedLength ∧
  r.externalQuality.length = r.unclippedLength ∧
  (∀ l, r.upcaseForwardRead = some l → l.length = r.unclippedLength) ∧
  (∀ l, r.rcData = some l → l.length = r.unclippedLength) ∧
  (∀ l, r.rcQuality = some l → l.length = r.unclippedLength) ∧
  (r.rcData.isSome ↔ r.rcQuality.isSome) ∧
  (r.currentReadDirection = .RC →
    r.dataSrc = .rc ∧ r.qualSrc = .rc ∧ r.rcData.isSome) ∧
  (r.currentReadDirection = .FORWARD →
    r.dataSrc = (if r.upcaseForwardRead.isSome then DataSrc.upcase else DataSrc.external) ∧
    r.qualSrc = .external)

/-- The invariant claimed for `Read` in the spec, in closed-span form:
`frontClippedLength + dataLength ≤ unclippedLength`, and the `data` and
`quality` pointers stay within
`[unclippedData, unclippedData + unclippedLength]` (offsets at most
`unclippedLength`; a fully front-clipped read sits exactly at the upper
bound). -/
def spanInvariant (r : Read) : Prop :=
  r.frontClippedLength + r.dataLength ≤ r.unclippedLength ∧
  r.dataOffset ≤ r.unclippedLength ∧
  r.qualOffset ≤ r.unclippedLength

/-! ## Lemmas about the byte-level primitives -/

theorem charAt_nil (i : Nat) : charAt [] i = nul := by
  cases i <;> rfl

theorem charAt_cons_zero (c : Char) (t : List Char) : charAt (c :: t) 0 = c := rfl

theorem charAt_cons_succ (c : Char) (t : List Char) (i : Nat) :
    charAt (c :: t) (i + 1) = charAt t i := rfl

theorem charAt_append_right (l u : List Char) (i : Nat) :
    charAt (l ++ u) (l.length + i) = charAt u i := by
  induction l with
  | nil => simp
  | cons c t ih =>
    have : t.length + 1 + i = (t.length + i) + 1 := by omega
    simp only [List.cons_append, List.length_cons, this, charAt_cons_succ]
    exact ih

theorem charAt_append_left (l u : List Char) (i : Nat) (h : i < l.length) :
    charAt (l ++ u) i = charAt l i := by
  induction l generalizing i with
  | nil => simp at h
  | cons c t ih =>
    cases i with
    | zero => rfl
    | succ j =>
      simp only [List.cons_append, charAt_cons_succ]
      exact ih j (by simpa using h)

theorem charAt_of_length_le (l : List Char) (i : Nat) (h : l.length ≤ i) :
    charAt l i = nul := by
  induction l generalizing i with
  | nil => exact charAt_nil i
  | cons c t ih =>
    cases i with
    | zero => simp at h
    | succ j => exact (charAt_cons_succ c t j).trans (ih j (by simpa using h))

theorem lt_length_of_charAt_ne_nul (l : List Char) (i : Nat) (h : charAt l i ≠ nul) :
    i < l.length := by
  by_contra hlt
  exact h (charAt_of_length_le l i (by omega))

theorem charAt_mem (l : List Char) (i : Nat) (h : i < l.length) : charAt l i ∈ l := by
  induction l generalizing i with
  | nil => simp at h
  | cons c t ih =>
    cases i with
    | zero => exact List.mem_cons_self _ _
    | succ j =>
      exact List.mem_cons_of_mem _ (ih j (by simpa using h))

theorem charAt_drop (l : List Char) (n i : Nat) :
    charAt (l.drop n) i = charAt l (n + i) := by
  induction l generalizing n with
  | nil => simp [charAt_nil]
  | cons c t ih =>
    cases n with
    | zero => simp
    | succ m =>
      have : m + 1 + i = (m + i) + 1 := by omega
      simp only [List.drop_succ_cons, this, charAt_cons_succ]
      exact ih m

theorem charAt_take (l : List Char) (m i : Nat) (h : i < m) :
    charAt (l.take m) i = charAt l i := by
  induction l generalizing m i with
  | nil => simp
  | cons c t ih =>
    cases m with
    | zero => omega
    | succ m' =>
      cases i with
      | zero => rfl
      | succ j =>
        simp only [List.take_succ_cons, charAt_cons_succ]
        exact ih m' j (by omega)

theorem charAt_eq_getElem (l : List Char) (i : Nat) (h : i < l.length) :
    charAt l i = l[i] := by
  induction l generalizing i with
  | nil => simp at h
  | cons c t ih =>
    cases i with
    | zero => rfl
    | succ j => exact (charAt_cons_succ c t j).trans (ih j (by simpa using h))

theorem findNl_of_not_mem (l : List Char) (h : '\n' ∉ l) : findNl l = none := by
  induction l with
  | nil => rfl
  | cons c t ih =>
    have hc : c ≠ '\n' := fun hc => h (hc ▸ List.mem_cons_self _ _)
    simp [findNl, hc, ih (fun hm => h (List.mem_cons_of_mem _ hm))]

theorem findNl_append (l t : List Char) (h : '\n' ∉ l) :
    findNl (l ++ '\n' :: t) = some l.length := by
  induction l with
  | nil => simp [findNl]
  | cons c u ih =>
    have hc : c ≠ '\n' := fun hc => h (hc ▸ List.mem_cons_self _ _)
    simp [findNl, hc, ih (fun hm => h (List.mem_cons_of_mem _ hm))]

theorem findNl_some (l : List Char) (n : Nat) (h : findNl l = some n) :
    n < l.length ∧ charAt l n = '\n' := by
  induction l generalizing n with
  | nil => simp [findNl] at h
  | cons c t ih =>
    by_cases hc : c = '\n'
    · simp [findNl, hc] at h
      subst h
      simp [hc, charAt_cons_zero]
    · simp [findNl, hc] at h
      obtain ⟨m, hm, rfl⟩ := h
      obtain ⟨h1, h2⟩ := ih m hm
      exact ⟨by simpa using Nat.succ_lt_succ h1, by simpa [charAt_cons_succ] using h2⟩

theorem drop_append_cons (l t : List Char) (c : Char) :
    (l ++ c :: t).drop (l.length + 1) = t := by
  induction l with
  | nil => simp
  | cons d u ih => simpa using ih

theorem drop_append_add {α : Type} (l u : List α) (m : Nat) :
    (l ++ u).drop (l.length + m) = u.drop m := by
  induction l with
  | nil => simp
  | cons d t ih => simpa [Nat.succ_add] using ih

theorem drop_append_le {α : Type} (l u : List α) (k : Nat) (h : k ≤ l.length) :
    (l ++ u).drop k = l.drop k ++ u := by
  induction l generalizing k with
  | nil =>
    have : k = 0 := by simpa using h
    simp [this]
  | cons d t ih =>
    cases k with
    | zero => simp
    | succ j => simpa using ih j (by simpa using h)

theorem scanLen_nil : scanLen [] = 0 := rfl

theorem scanLen_cons_false (c : Char) (t : List Char) (h : isCodeBase c = false) :
    scanLen (c :: t) = 0 := by
  simp [scanLen, h]

theorem scanLen_append_all (l t : List Char) (h : ∀ c ∈ l, isCodeBase c = true) :
    scanLen (l ++ t) = l.length + scanLen t := by
  induction l with
  | nil => simp
  | cons c u ih =>
    have hc : isCodeBase c = true := h c (List.mem_cons_self _ _)
    have ih' := ih (fun d hd => h d (List.mem_cons_of_mem _ hd))
    simp only [List.cons_append, scanLen, hc, if_pos, List.length_cons, List.append_eq]
    omega

theorem scanLen_le (l : List Char) : scanLen l ≤ l.length := by
  induction l with
  | nil => simp [scanLen]
  | cons c t ih =>
    by_cases hc : isCodeBase c <;> simp [scanLen, hc] <;> omega

theorem scanLen_take (l : List Char) : ∀ c ∈ l.take (scanLen l), isCodeBase c = true := by
  induction l with
  | nil => simp
  | cons c t ih =>
    by_cases hc : isCodeBase c
    · simp only [scanLen, hc, if_pos, List.take_succ_cons]
      intro d hd
      rcases List.mem_cons.mp hd with h | h
      · exact h ▸ hc
      · exact ih d h
    · simp [scanLen, hc]

theorem isCodeBase_ne_at (c : Char) (h : isCodeBase c = true) : c ≠ '@' := by
  intro hc
  subst hc
  simp [isCodeBase] at h

theorem sprGoF_fuel_eq (rem : List Char) (f₁ f₂ : Nat)
    (h₁ : rem.length < f₁) (h₂ : rem.length < f₂) : sprGoF f₁ rem = sprGoF f₂ rem := by
  induction f₁ generalizing rem f₂ with
  | zero => omega
  | succ g ih =>
    cases f₂ with
    | zero => omega
    | succ h =>
      simp only [sprGoF]
      cases hfn : findNl rem with
      | none => rfl
      | some n =>
        have hne : n < rem.length := (findNl_some rem n hfn).1
        have hlen : (rem.drop (n + 1)).length < g := by
          simp [List.length_drop]; omega
        have hlen2 : (rem.drop (n + 1)).length < h := by
          simp [List.length_drop]; omega
        simp only [ih (rem.drop (n + 1)) h hlen hlen2]

/-! ## The candidate loop, one line at a time -/

theorem flatRecs_nil : flatRecs [] = [] := rfl

theorem flatRecs_cons (r : FqRecord) (rs : List FqRecord) :
    flatRecs (r :: rs) = recBytes r ++ flatRecs rs := by
  simp [flatRecs]

theorem sprRun_nil : sprRun [] = none := rfl

theorem charAt_append_head (l u : List Char) (hne : l ≠ []) :
    charAt (l ++ u) 0 = charAt l 0 :=
  charAt_append_left l u 0 (List.length_pos.mpr hne)

/-- One iteration of the candidate loop on a buffer whose current candidate
line is `l`: accept exactly when the candidate starts with `@` and the
three-line lookahead on `t` succeeds, otherwise move to the next line. -/
theorem sprRun_step (l t : List Char) (hl : '\n' ∉ l) :
    sprRun (l ++ '\n' :: t) =
      if charAt (l ++ '\n' :: t) 0 = '@' ∧ acceptTest t = true then some 0
      else Option.map (· + (l.length + 1)) (sprRun t) := by
  have hfuel : sprGoF (l ++ '\n' :: t).length t = sprRun t := by
    apply sprGoF_fuel_eq
    · simp; omega
    · omega
  show sprGoF ((l ++ '\n' :: t).length + 1) (l ++ '\n' :: t) = _
  simp only [sprGoF, findNl_append l t hl, drop_append_cons, hfuel]

theorem sprRun_skip (l t : List Char) (hl : '\n' ∉ l)
    (h : ¬(charAt (l ++ '\n' :: t) 0 = '@' ∧ acceptTest t = true)) :
    sprRun (l ++ '\n' :: t) = Option.map (· + (l.length + 1)) (sprRun t) := by
  rw [sprRun_step l t hl, if_neg h]

theorem sprRun_skip_head (l t : List Char) (hl : '\n' ∉ l)
    (h0 : charAt (l ++ '\n' :: t) 0 ≠ '@') :
    sprRun (l ++ '\n' :: t) = Option.map (· + (l.length + 1)) (sprRun t) :=
  sprRun_skip l t hl (fun hc => h0 hc.1)

/-- The lookahead succeeds on a buffer starting with a line of accepted base
characters followed by a line starting with `+`. -/
theorem acceptTest_of (bs v : List Char) (hb : ∀ c ∈ bs, isCodeBase c = true)
    (hv : charAt v 0 = '+') : acceptTest (bs ++ '\n' :: v) = true := by
  have hj : scanLen (bs ++ '\n' :: v) = bs.length := by
    rw [scanLen_append_all bs _ hb, scanLen_cons_false _ _ (by decide)]
    omega
  have hnl : charAt (bs ++ '\n' :: v) bs.length = '\n' :=
    (charAt_append_right bs ('\n' :: v) 0).trans (charAt_cons_zero _ _)
  have hplus : charAt (bs ++ '\n' :: v) (bs.length + 1) = '+' :=
    (charAt_append_right bs ('\n' :: v) 1).trans
      ((charAt_cons_succ '\n' v 0).trans hv)
  simp only [acceptTest, hj, hnl, if_neg (by decide : ¬('\n' : Char) = '\r'), hplus]
  decide

/-- The lookahead fails on a buffer starting with `@` (a quality line
starting with `@` is never mistaken for a base line because the line after
it — the next record's header — starts with `@`, which the base scan
rejects). -/
theorem acceptTest_cons_at (w : List Char) : acceptTest ('@' :: w) = false := by
  have hs : scanLen ('@' :: w) = 0 := scanLen_cons_false _ _ (by decide)
  simp only [acceptTest, hs, charAt_cons_zero, if_neg (by decide : ¬('@' : Char) = '\r')]
  rw [show (('@' : Char) == '\n') = false from rfl]
  simp

theorem acceptTest_nil : acceptTest [] = false := by decide

/-- The lookahead fails at the byte sequence of a well-formed record list:
it is either empty or starts with a header's `@`. -/
theorem acceptTest_flatRecs (rs : List FqRecord) (h : ∀ x ∈ rs, wfRecord x) :
    acceptTest (flatRecs rs) = false := by
  cases rs with
  | nil => exact acceptTest_nil
  | cons r rs' =>
    obtain ⟨hhne, hh0, _⟩ := h r (List.mem_cons_self _ _)
    cases hhd : r.hdr with
    | nil => exact absurd hhd hhne
    | cons c cs =>
      have hc : c = '@' := by rw [hhd] at hh0; simpa [charAt_cons_zero] using hh0
      rw [flatRecs_cons, recBytes, hhd, hc, List.cons_append]
      exact acceptTest_cons_at _

/-- A candidate whose header line starts a well-formed record is accepted on
the spot, whatever follows the record. -/
theorem sprRun_record (r : FqRecord) (hr : wfRecord r) (u : List Char) :
    sprRun (recBytes r ++ u) = some 0 := by
  obtain ⟨hhne, hh0, hhnl, hbne, hbase, hpne, hp0, hpnl, hqne, hqnl⟩ := hr
  have hshape : recBytes r ++ u =
      r.hdr ++ '\n' :: (r.bases ++ '\n' :: (r.plus ++ '\n' :: (r.qual ++ '\n' :: u))) := by
    simp [recBytes]
  rw [hshape, sprRun_step _ _ hhnl, if_pos]
  refine ⟨?_, ?_⟩
  · rw [charAt_append_head _ _ hhne]; exact hh0
  · exact acceptTest_of _ _ hbase (by rw [charAt_append_head _ _ hpne]; exact hp0)

/-- Skipping a (possibly truncated) quality line lands on the record list
behind it: either nothing follows (`none`) or the next record is accepted. -/
theorem sprRun_qual_stage (q' : List Char) (hq : '\n' ∉ q') (rs : List FqRecord)
    (hrs : ∀ x ∈ rs, wfRecord x) :
    sprRun (q' ++ '\n' :: flatRecs rs) =
      if rs = [] then none else some (q'.length + 1) := by
  rw [sprRun_skip q' _ hq (by
    intro hcontra
    have := hcontra.2
    rw [acceptTest_flatRecs rs hrs] at this
    exact absurd this (by decide))]
  cases rs with
  | nil => simp [flatRecs_nil, sprRun_nil]
  | cons r rs' =>
    rw [flatRecs_cons, sprRun_record r (hrs r (List.mem_cons_self _ _)) (flatRecs rs')]
    simp

theorem skipPartialRecord_at (buf : List Char) (h : charAt buf 0 = '@') :
    FASTQReader.skipPartialRecord buf = sprRun buf := by
  unfold FASTQReader.skipPartialRecord
  rw [if_pos h]

theorem skipPartialRecord_not_at (l t : List Char) (hl : '\n' ∉ l)
    (h0 : charAt (l ++ '\n' :: t) 0 ≠ '@') :
    FASTQReader.skipPartialRecord (l ++ '\n' :: t) =
      Option.map (· + (l.length + 1)) (sprRun t) := by
  unfold FASTQReader.skipPartialRecord
  rw [if_neg h0]
  simp only [findNl_append l t hl, drop_append_cons]

theorem map_add_ite (c : Prop) [Decidable c] (a v : Nat) :
    Option.map (· + a) (if c then none else some v) =
      if c then none else some (v + a) := by
  by_cases hc : c <;> simp [hc]

theorem length_recBytes (r : FqRecord) :
    (recBytes r).length =
      r.hdr.length + r.bases.length + r.plus.length + r.qual.length + 4 := by
  simp [recBytes]
  omega

theorem charAt_drop_head (l : List Char) (k : Nat) (hk : k < l.length) (u : List Char) :
    charAt (l.drop k ++ u) 0 = charAt l k := by
  have hne : l.drop k ≠ [] := by
    intro hemp
    have := congrArg List.length hemp
    simp [List.length_drop] at this
    omega
  rw [charAt_append_head _ _ hne, charAt_drop]
  exact congrArg (charAt l) (Nat.add_zero k)

theorem not_mem_nl_of_subset {l m : List Char} (h : '\n' ∉ m) (hs : l ⊆ m) : '\n' ∉ l :=
  fun hm => h (hs hm)

theorem nl_not_mem_bases (bs : List Char) (hb : ∀ c ∈ bs, isCodeBase c = true) :
    '\n' ∉ bs := by
  intro hm
  have := hb _ hm
  exact absurd this (by decide)

/-- The base-character scan over a buffer whose first line is newline
terminated stops within that line: `isCodeBase (backslash n) = false`. -/
theorem scanLen_append_nl_le (q rest : List Char) :
    scanLen (q ++ '\n' :: rest) ≤ q.length := by
  induction q with
  | nil => simp [scanLen, (by decide : isCodeBase '\n' = false)]
  | cons c t ih =>
    by_cases hc : isCodeBase c <;> simp [scanLen, hc, List.append_eq] <;> omega

/-- The byte sequence of a well-formed record list starts with a header's `@`
or, when the list is empty, the terminating null byte. -/
theorem charAt_flatRecs_zero (rs : List FqRecord) (hrs : ∀ x ∈ rs, wfRecord x) :
    charAt (flatRecs rs) 0 = '@' ∨ charAt (flatRecs rs) 0 = nul := by
  cases rs with
  | nil => exact Or.inr rfl
  | cons r rs' =>
    obtain ⟨hhne, hh0, -⟩ := hrs r (List.mem_cons_self _ _)
    rw [flatRecs_cons, recBytes, List.append_assoc, charAt_append_head _ _ hhne]
    exact Or.inl hh0

/-- The three-line lookahead fails when pointed at the (newline-free) tail of
a quality line followed by well-formed records: wherever the base scan stops
inside or at the end of that tail, the byte that would have to be `+` is
either a further byte of the tail (which would have to be a newline first), or
the leading byte of the record list behind — a header's `@` or the
end-of-input null, never `+`. -/
theorem acceptTest_qual_tail (q : List Char) (hq : '\n' ∉ q) (rs : List FqRecord)
    (hrs : ∀ x ∈ rs, wfRecord x) :
    acceptTest (q ++ '\n' :: flatRecs rs) = false := by
  have hj : scanLen (q ++ '\n' :: flatRecs rs) ≤ q.length := scanLen_append_nl_le q _
  have hnl_at : charAt (q ++ '\n' :: flatRecs rs) q.length = '\n' :=
    (charAt_append_right q _ 0).trans (charAt_cons_zero _ _)
  have hplus : charAt (q ++ '\n' :: flatRecs rs) (q.length + 1) ≠ '+' := by
    have e : charAt (q ++ '\n' :: flatRecs rs) (q.length + 1) = charAt (flatRecs rs) 0 :=
      (charAt_append_right q _ 1).trans (charAt_cons_succ _ _ 0)
    rw [e]
    rcases charAt_flatRecs_zero rs hrs with h | h <;> rw [h] <;> decide
  have hq_ne_nl : ∀ i, i < q.length → charAt (q ++ '\n' :: flatRecs rs) i ≠ '\n' := by
    intro i hi
    rw [charAt_append_left q _ i hi]
    exact fun hcon => hq (hcon ▸ charAt_mem q i hi)
  simp only [acceptTest]
  by_cases hcr : charAt (q ++ '\n' :: flatRecs rs) (scanLen (q ++ '\n' :: flatRecs rs)) = '\r'
  · rw [if_pos hcr]
    have hjlt : scanLen (q ++ '\n' :: flatRecs rs) < q.length := by
      rcases Nat.lt_or_ge (scanLen (q ++ '\n' :: flatRecs rs)) q.length with h | h
      · exact h
      · have hje : scanLen (q ++ '\n' :: flatRecs rs) = q.length := by omega
        rw [hje, hnl_at] at hcr
        exact absurd hcr (by decide)
    by_cases h1 : scanLen (q ++ '\n' :: flatRecs rs) + 1 = q.length
    · have hp : (charAt (q ++ '\n' :: flatRecs rs)
          (scanLen (q ++ '\n' :: flatRecs rs) + 1 + 1) == '+') = false := by
        rw [show scanLen (q ++ '\n' :: flatRecs rs) + 1 + 1 = q.length + 1 from by omega]
        exact beq_eq_false_iff_ne.mpr hplus
      rw [hp, Bool.and_false]
    · have hm : (charAt (q ++ '\n' :: flatRecs rs)
          (scanLen (q ++ '\n' :: flatRecs rs) + 1) == '\n') = false :=
        beq_eq_false_iff_ne.mpr (hq_ne_nl _ (by omega))
      rw [hm, Bool.false_and]
  · rw [if_neg hcr]
    by_cases h2 : scanLen (q ++ '\n' :: flatRecs rs) = q.length
    · have hp : (charAt (q ++ '\n' :: flatRecs rs)
          (scanLen (q ++ '\n' :: flatRecs rs) + 1) == '+') = false := by
        rw [h2]
        exact beq_eq_false_iff_ne.mpr hplus
      rw [hp, Bool.and_false]
    · have hm : (charAt (q ++ '\n' :: flatRecs rs)
          (scanLen (q ++ '\n' :: flatRecs rs)) == '\n') = false :=
        beq_eq_false_iff_ne.mpr (hq_ne_nl _ (by omega))
      rw [hm, Bool.false_and]

/-- The candidate loop started anywhere on the (newline-free) tail of a plus
line resolves to the record list behind the record, whatever byte the tail
starts with — in particular a stray `@` inside the plus line is never
accepted, because the lookahead's `+`-check lands on the next record's
header. -/
theorem sprRun_plus_stage (p' q : List Char) (hpnl : '\n' ∉ p') (hqnl : '\n' ∉ q)
    (rs : List FqRecord) (hrs : ∀ x ∈ rs, wfRecord x) :
    sprRun (p' ++ '\n' :: (q ++ '\n' :: flatRecs rs)) =
      if rs = [] then none else some (p'.length + q.length + 2) := by
  rw [sprRun_skip p' _ hpnl (by
    intro hcontra
    have := hcontra.2
    rw [acceptTest_qual_tail q hqnl rs hrs] at this
    exact absurd this (by decide)),
    sprRun_qual_stage q hqnl rs hrs, map_add_ite]
  by_cases h : rs = [] <;> simp [h] <;> omega

/-- The loop started at the plus line of a well-formed record resolves to the
record list behind the record. -/
theorem sprRun_from_plus (r : FqRecord) (rs : List FqRecord)
    (hpne : r.plus ≠ []) (hp0 : charAt r.plus 0 = '+') (hpnl : '\n' ∉ r.plus)
    (hqnl : '\n' ∉ r.qual) (hrs : ∀ x ∈ rs, wfRecord x) :
    sprRun (r.plus ++ '\n' :: (r.qual ++ '\n' :: flatRecs rs)) =
      if rs = [] then none else some (r.plus.length + r.qual.length + 2) := by
  rw [sprRun_skip_head _ _ hpnl
        (by rw [charAt_append_head _ _ hpne, hp0]; decide),
      sprRun_qual_stage _ hqnl rs hrs, map_add_ite]
  by_cases h : rs = [] <;> simp [h] <;> omega

/-- The loop started at the base line of a well-formed record resolves to the
record list behind the record. -/
theorem sprRun_from_bases (r : FqRecord) (rs : List FqRecord)
    (hbne : r.bases ≠ []) (hb : ∀ c ∈ r.bases, isCodeBase c = true)
    (hpne : r.plus ≠ []) (hp0 : charAt r.plus 0 = '+') (hpnl : '\n' ∉ r.plus)
    (hqnl : '\n' ∉ r.qual) (hrs : ∀ x ∈ rs, wfRecord x) :
    sprRun (r.bases ++ '\n' :: (r.plus ++ '\n' :: (r.qual ++ '\n' :: flatRecs rs))) =
      if rs = [] then none
      else some (r.bases.length + r.plus.length + r.qual.length + 3) := by
  have hbhead : charAt (r.bases ++ '\n' :: (r.plus ++ '\n' :: (r.qual ++ '\n' :: flatRecs rs))) 0 ≠ '@' := by
    rw [charAt_append_head _ _ hbne]
    exact isCodeBase_ne_at _ (hb _ (charAt_mem _ 0 (List.length_pos.mpr hbne)))
  rw [sprRun_skip_head _ _ (nl_not_mem_bases _ hb) hbhead,
      sprRun_from_plus r rs hpne hp0 hpnl hqnl hrs, map_add_ite]
  by_cases h : rs = [] <;> simp [h] <;> omega

/-- Boundary recovery on a buffer consisting of the tail of a well-formed
record from byte offset `k` on, followed by further well-formed records.
Provided a leading `@` does not sit strictly inside the header line (the
amendment: a mid-header `@` derails the heuristic; an `@` anywhere later in
the record — on the plus line past its `+`, or anywhere on the quality
line — is harmless, because the lookahead there runs into the next record's
header), the cursor advances exactly to the next record start: offset 0 when
the window begins at a record, the distance to the following record
otherwise, and `none` exactly when no record start follows. -/
theorem skipPartialRecord_boundary (r : FqRecord) (rs : List FqRecord) (k : Nat)
    (hr : wfRecord r) (hrs : ∀ x ∈ rs, wfRecord x)
    (hk : k < (recBytes r).length)
    (hat : charAt ((recBytes r).drop k) 0 = '@' → k = 0 ∨ r.hdr.length ≤ k) :
    FASTQReader.skipPartialRecord ((recBytes r).drop k ++ flatRecs rs) =
      if k = 0 then some 0
      else if rs = [] then none else some ((recBytes r).length - k) := by
  have hr' := hr
  obtain ⟨hhne, hh0, hhnl, hbne, hbase, hpne, hp0, hpnl, hqne, hqnl⟩ := hr'
  have hlen := length_recBytes r
  by_cases hk0 : k = 0
  · subst hk0
    have hshape : recBytes r ++ flatRecs rs =
        r.hdr ++ '\n' :: (r.bases ++ '\n' :: (r.plus ++ '\n' :: (r.qual ++ '\n' :: flatRecs rs))) := by
      simp [recBytes]
    rw [List.drop_zero, skipPartialRecord_at _ (by
        rw [hshape, charAt_append_head _ _ hhne]; exact hh0),
      sprRun_record r hr (flatRecs rs)]
    simp
  · rw [if_neg hk0]
    by_cases hseg1 : k ≤ r.hdr.length
    · -- offset inside the header line (or at its terminating newline)
      have hdec : (recBytes r).drop k =
          r.hdr.drop k ++ '\n' :: (r.bases ++ '\n' :: (r.plus ++ '\n' :: (r.qual ++ ['\n']))) := by
        rw [recBytes, drop_append_le _ _ k hseg1]
      have hbuf : (recBytes r).drop k ++ flatRecs rs =
          r.hdr.drop k ++ '\n' :: (r.bases ++ '\n' :: (r.plus ++ '\n' :: (r.qual ++ '\n' :: flatRecs rs))) := by
        rw [hdec]; simp
      have hhead : charAt (r.hdr.drop k ++ '\n' :: (r.bases ++ '\n' :: (r.plus ++ '\n' :: (r.qual ++ '\n' :: flatRecs rs)))) 0 ≠ '@' := by
        rcases Nat.lt_or_ge k r.hdr.length with hlt | hge
        · rw [charAt_drop_head _ _ hlt]
          intro heq
          have hatp : charAt ((recBytes r).drop k) 0 = '@' := by
            rw [hdec, charAt_drop_head _ _ hlt]; exact heq
          rcases hat hatp with h0 | hqs
          · exact hk0 h0
          · omega
        · have hkh : k = r.hdr.length := by omega
          rw [hkh, List.drop_length, List.nil_append, charAt_cons_zero]
          decide
      rw [hbuf, skipPartialRecord_not_at _ _
            (not_mem_nl_of_subset hhnl (List.drop_subset _ _)) hhead,
          sprRun_from_bases r rs hbne hbase hpne hp0 hpnl hqnl hrs, map_add_ite]
      by_cases hrs0 : rs = [] <;> simp [hrs0, List.length_drop] <;> omega
    · by_cases hseg2 : k ≤ r.hdr.length + 1 + r.bases.length
      · -- offset inside the base line (or at its terminating newline)
        obtain ⟨k', rfl⟩ : ∃ k', k = r.hdr.length + 1 + k' :=
          ⟨k - (r.hdr.length + 1), by omega⟩
        have hk'b : k' ≤ r.bases.length := by omega
        have e1 : recBytes r =
            (r.hdr ++ ['\n']) ++ (r.bases ++ '\n' :: (r.plus ++ '\n' :: (r.qual ++ ['\n']))) := by
          simp [recBytes]
        have e2 : r.hdr.length + 1 + k' = (r.hdr ++ ['\n']).length + k' := by
          simp
        have hdec : (recBytes r).drop (r.hdr.length + 1 + k') =
            r.bases.drop k' ++ '\n' :: (r.plus ++ '\n' :: (r.qual ++ ['\n'])) := by
          rw [e1, e2, drop_append_add, drop_append_le _ _ _ hk'b]
        have hbuf : (recBytes r).drop (r.hdr.length + 1 + k') ++ flatRecs rs =
            r.bases.drop k' ++ '\n' :: (r.plus ++ '\n' :: (r.qual ++ '\n' :: flatRecs rs)) := by
          rw [hdec]; simp
        have hhead : charAt (r.bases.drop k' ++ '\n' :: (r.plus ++ '\n' :: (r.qual ++ '\n' :: flatRecs rs))) 0 ≠ '@' := by
          rcases Nat.lt_or_ge k' r.bases.length with hlt | hge
          · rw [charAt_drop_head _ _ hlt]
            exact isCodeBase_ne_at _ (hbase _ (charAt_mem _ _ hlt))
          · have hkb : k' = r.bases.length := by omega
            rw [hkb, List.drop_length, List.nil_append, charAt_cons_zero]
            decide
        rw [hbuf, skipPartialRecord_not_at _ _
              (not_mem_nl_of_subset (nl_not_mem_bases _ hbase) (List.drop_subset _ _)) hhead,
            sprRun_from_plus r rs hpne hp0 hpnl hqnl hrs, map_add_ite]
        by_cases hrs0 : rs = [] <;> simp [hrs0, List.length_drop] <;> omega
      · by_cases hseg3 : k ≤ r.hdr.length + r.bases.length + 2 + r.plus.length
        · -- offset inside the plus line (or at its terminating newline)
          obtain ⟨k', rfl⟩ : ∃ k', k = r.hdr.length + r.bases.length + 2 + k' :=
            ⟨k - (r.hdr.length + r.bases.length + 2), by omega⟩
          have hk'p : k' ≤ r.plus.length := by omega
          have e1 : recBytes r =
              (r.hdr ++ '\n' :: (r.bases ++ ['\n'])) ++ (r.plus ++ '\n' :: (r.qual ++ ['\n'])) := by
            simp [recBytes]
          have e2 : r.hdr.length + r.bases.length + 2 + k' =
              (r.hdr ++ '\n' :: (r.bases ++ ['\n'])).length + k' := by
            simp
            omega
          have hdec : (recBytes r).drop (r.hdr.length + r.bases.length + 2 + k') =
              r.plus.drop k' ++ '\n' :: (r.qual ++ ['\n']) := by
            rw [e1, e2, drop_append_add, drop_append_le _ _ _ hk'p]
          have hbuf : (recBytes r).drop (r.hdr.length + r.bases.length + 2 + k') ++ flatRecs rs =
              r.plus.drop k' ++ '\n' :: (r.qual ++ '\n' :: flatRecs rs) := by
            rw [hdec]; simp
          by_cases hp0' : charAt (r.plus.drop k' ++ '\n' :: (r.qual ++ '\n' :: flatRecs rs)) 0 = '@'
          · -- a stray `@` on the plus line: the candidate is still rejected,
            -- because the lookahead's `+`-check lands on the next header
            rw [hbuf, skipPartialRecord_at _ hp0',
                sprRun_plus_stage _ _ (not_mem_nl_of_subset hpnl (List.drop_subset _ _)) hqnl rs hrs]
            by_cases hrs0 : rs = [] <;> simp [hrs0, List.length_drop] <;> omega
          · rw [hbuf, skipPartialRecord_not_at _ _
                  (not_mem_nl_of_subset hpnl (List.drop_subset _ _)) hp0',
                sprRun_qual_stage _ hqnl rs hrs, map_add_ite]
            by_cases hrs0 : rs = [] <;> simp [hrs0, List.length_drop] <;> omega
        · -- offset inside the quality line (or at its terminating newline)
          obtain ⟨k', rfl⟩ : ∃ k',
              k = r.hdr.length + r.bases.length + r.plus.length + 3 + k' :=
            ⟨k - (r.hdr.length + r.bases.length + r.plus.length + 3), by omega⟩
          have hk'q : k' ≤ r.qual.length := by omega
          have e1 : recBytes r =
              (r.hdr ++ '\n' :: (r.bases ++ '\n' :: (r.plus ++ ['\n']))) ++ (r.qual ++ ['\n']) := by
            simp [recBytes]
          have e2 : r.hdr.length + r.bases.length + r.plus.length + 3 + k' =
              (r.hdr ++ '\n' :: (r.bases ++ '\n' :: (r.plus ++ ['\n']))).length + k' := by
            simp
            omega
          have hdec : (recBytes r).drop (r.hdr.length + r.bases.length + r.plus.length + 3 + k') =
              r.qual.drop k' ++ ['\n'] := by
            rw [e1, e2, drop_append_add, drop_append_le _ _ _ hk'q]
          have hbuf : (recBytes r).drop (r.hdr.length + r.bases.length + r.plus.length + 3 + k') ++ flatRecs rs =
              r.qual.drop k' ++ '\n' :: flatRecs rs := by
            rw [hdec]; simp
          by_cases hq0 : charAt (r.qual.drop k' ++ '\n' :: flatRecs rs) 0 = '@'
          · -- a stray `@` on the quality line: the candidate is rejected
            -- because the line behind it is the next record's header
            rw [hbuf, skipPartialRecord_at _ hq0,
                sprRun_qual_stage _ (not_mem_nl_of_subset hqnl (List.drop_subset _ _)) rs hrs]
            by_cases hrs0 : rs = [] <;> simp [hrs0, List.length_drop] <;> omega
          · rw [hbuf, skipPartialRecord_not_at _ _
                  (not_mem_nl_of_subset hqnl (List.drop_subset _ _)) hq0]
            by_cases hrs0 : rs = []
            · rw [hrs0, flatRecs_nil, sprRun_nil]
              simp [hrs0]
            · obtain ⟨r1, rs1, rfl⟩ : ∃ r1 rs1, rs = r1 :: rs1 := by
                cases rs with
                | nil => exact absurd rfl hrs0
                | cons a b => exact ⟨a, b, rfl⟩
              rw [flatRecs_cons, sprRun_record r1 (hrs r1 (List.mem_cons_self _ _)) _]
              simp [List.length_drop]
              omega

/-! ## Characterizing acceptance of a candidate (claim C3) -/

theorem supportedBase_of_isCodeBase (c : Char) (h : isCodeBase c = true) :
    supportedBase c = true := by
  simp only [isCodeBase, Bool.or_eq_true, beq_iff_eq] at h
  rcases h with (((((((h | h) | h) | h) | h) | h) | h) | h) | h <;> subst h <;> decide

/-- A successful lookahead decomposes the buffer after the candidate line into
a line of accepted base characters, terminated by a newline optionally
preceded by one carriage return, followed by a line starting with `+`. -/
theorem acceptTest_decomp (t : List Char) (hacc : acceptTest t = true) :
    ∃ bl t', ((t = bl ++ '\n' :: t') ∨ (t = bl ++ '\r' :: '\n' :: t')) ∧
      (∀ c ∈ bl, isCodeBase c = true) ∧ charAt t' 0 = '+' := by
  simp only [acceptTest] at hacc
  by_cases hcr : charAt t (scanLen t) = '\r'
  · rw [if_pos hcr] at hacc
    simp only [Bool.and_eq_true, beq_iff_eq] at hacc
    obtain ⟨h1, h2⟩ := hacc
    have hjlt : scanLen t < t.length :=
      lt_length_of_charAt_ne_nul t _ (by rw [hcr]; decide)
    have hjlt1 : scanLen t + 1 < t.length :=
      lt_length_of_charAt_ne_nul t _ (by rw [h1]; decide)
    refine ⟨t.take (scanLen t), t.drop (scanLen t + 2), Or.inr ?_, scanLen_take t, ?_⟩
    · conv_lhs => rw [← List.take_append_drop (scanLen t) t]
      congr 1
      rw [List.drop_eq_getElem_cons hjlt, ← charAt_eq_getElem t _ hjlt, hcr]
      congr 1
      rw [List.drop_eq_getElem_cons hjlt1, ← charAt_eq_getElem t _ hjlt1, h1]
    · rw [charAt_drop]
      exact h2
  · rw [if_neg hcr] at hacc
    simp only [Bool.and_eq_true, beq_iff_eq] at hacc
    obtain ⟨h1, h2⟩ := hacc
    have hjlt : scanLen t < t.length :=
      lt_length_of_charAt_ne_nul t _ (by rw [h1]; decide)
    refine ⟨t.take (scanLen t), t.drop (scanLen t + 1), Or.inl ?_, scanLen_take t, ?_⟩
    · conv_lhs => rw [← List.take_append_drop (scanLen t) t]
      congr 1
      rw [List.drop_eq_getElem_cons hjlt, ← charAt_eq_getElem t _ hjlt, h1]
    · rw [charAt_drop]
      exact h2

/-- Acceptance at the current candidate (`some 0`) forces the loop's
conditions: the candidate byte is `@` and the lookahead succeeded. -/
theorem sprRun_some_zero (l t : List Char) (hl : '\n' ∉ l)
    (h0 : sprRun (l ++ '\n' :: t) = some 0) :
    charAt (l ++ '\n' :: t) 0 = '@' ∧ acceptTest t = true := by
  by_cases hcond : charAt (l ++ '\n' :: t) 0 = '@' ∧ acceptTest t = true
  · exact hcond
  · rw [sprRun_skip l t hl hcond] at h0
    cases hsp : sprRun t with
    | none => rw [hsp] at h0; exact Option.noConfusion h0
    | some v =>
      rw [hsp] at h0
      have hv : v + (l.length + 1) = 0 := Option.some.inj h0
      omega

/-! ## The sequential parser's per-line checks (claim C2) -/

theorem validStartRow_three (c : Char) : validStartRow 3 c = (c == '@') := by
  simp [validStartRow]

theorem validStartRow_zero (c : Char) : validStartRow 0 c = supportedBase c := by
  simp [validStartRow]

theorem validStartRow_one (c : Char) : validStartRow 1 c = (c == '+') := by
  simp [validStartRow]

theorem validStartRow_two (c : Char) : validStartRow 2 c = printableAscii c := by
  simp [validStartRow]

theorem validStartRow_ne_cr (row : Nat) : validStartRow row '\r' = false := by
  unfold validStartRow
  split
  · decide
  · split
    · decide
    · split
      · decide
      · decide

/-- A line the parser's loop accepts was non-empty, began with a character
valid for its row, and that character heads the stripped content. -/
theorem parseLine_ok (buf : List Char) (eof : Bool) (row scan : Nat)
    (content : List Char) (next : Nat)
    (h : parseLine buf eof row scan = .ok content next) :
    validStartRow row (charAt buf scan) = true ∧ content ≠ [] ∧
    charAt content 0 = charAt buf scan := by
  cases hfn : findNl (buf.drop scan) with
  | none =>
    simp only [parseLine, hfn] at h
    split at h <;> simp at h
  | some lineLen =>
    simp only [parseLine, hfn] at h
    split at h
    · simp at h
    · rename_i hlen0
      split at h
      · simp at h
      · rename_i hvsn
        have hvs : validStartRow row (charAt buf scan) = true := by
          by_contra hc
          exact hvsn (by simpa using hc)
        refine ⟨hvs, ?_, ?_⟩
        all_goals
          injection h with hcontent hnext
          subst hcontent
        · -- content nonempty
          have hlt := (findNl_some _ _ hfn).1
          have hstr : 1 ≤ lineLen - (if charAt buf (scan + lineLen - 1) = '\r' then 1 else 0) := by
            split
            · rename_i hcr
              rcases Nat.lt_or_ge lineLen 2 with h2 | h2
              · have h1 : lineLen = 1 := by omega
                rw [h1] at hcr
                simp at hcr
                rw [hcr] at hvs
                rw [validStartRow_ne_cr] at hvs
                exact absurd hvs (by decide)
              · omega
            · omega
          intro hemp
          have hlc := congrArg List.length hemp
          rw [List.length_take] at hlc
          simp only [List.length_nil] at hlc
          rcases Nat.min_eq_zero_iff.mp hlc with hz | hz
          · omega
          · omega
        · -- head of content
          have hlt := (findNl_some _ _ hfn).1
          have hstr : 1 ≤ lineLen - (if charAt buf (scan + lineLen - 1) = '\r' then 1 else 0) := by
            split
            · rename_i hcr
              rcases Nat.lt_or_ge lineLen 2 with h2 | h2
              · have h1 : lineLen = 1 := by omega
                rw [h1] at hcr
                simp at hcr
                rw [hcr] at hvs
                rw [validStartRow_ne_cr] at hvs
                exact absurd hvs (by decide)
              · omega
            · omega
          rw [charAt_take _ _ _ hstr, charAt_drop]
          exact congrArg (charAt buf) (Nat.add_zero scan)

/-- The parser's sole non-fatal, non-success exit is the lone trailing DOS
0x1a byte, and it only fires at end-of-input. -/
theorem parseLine_ctrlZ (buf : List Char) (eof : Bool) (row scan : Nat)
    (h : parseLine buf eof row scan = .ctrlZ) : eof = true := by
  cases hfn : findNl (buf.drop scan) with
  | none =>
    simp only [parseLine, hfn] at h
    split at h
    · rename_i hcond
      exact hcond.2.2
    · simp at h
  | some lineLen =>
    simp only [parseLine, hfn] at h
    split at h
    · simp at h
    · split at h
      · simp at h
      · simp at h

theorem getReadFromBuffer_ok_facts (buf : List Char) (eof : Bool) (p : FqParsed) (n : Nat)
    (h : FASTQReader.getReadFromBuffer buf eof = .ok p n) :
    charAt buf 0 = '@' ∧
    p.data ≠ [] ∧ supportedBase (charAt p.data 0) = true ∧
    p.plusLine ≠ [] ∧ charAt p.plusLine 0 = '+' ∧
    p.qualityLine ≠ [] ∧ printableAscii (charAt p.qualityLine 0) = true := by
  unfold FASTQReader.getReadFromBuffer at h
  cases h0 : parseLine buf eof 3 0 with
  | fatal => simp [h0] at h
  | ctrlZ => simp [h0] at h
  | ok l0 s1 =>
    cases h1 : parseLine buf eof 0 s1 with
    | fatal => simp [h0, h1] at h
    | ctrlZ => simp [h0, h1] at h
    | ok l1 s2 =>
      cases h2 : parseLine buf eof 1 s2 with
      | fatal => simp [h0, h1, h2] at h
      | ctrlZ => simp [h0, h1, h2] at h
      | ok l2 s3 =>
        cases h3 : parseLine buf eof 2 s3 with
        | fatal => simp [h0, h1, h2, h3] at h
        | ctrlZ => simp [h0, h1, h2, h3] at h
        | ok l3 s4 =>
          simp only [h0, h1, h2, h3] at h
          injection h with hp hn
          subst hp
          obtain ⟨hv0, hne0, hc0⟩ := parseLine_ok _ _ _ _ _ _ h0
          obtain ⟨hv1, hne1, hc1⟩ := parseLine_ok _ _ _ _ _ _ h1
          obtain ⟨hv2, hne2, hc2⟩ := parseLine_ok _ _ _ _ _ _ h2
          obtain ⟨hv3, hne3, hc3⟩ := parseLine_ok _ _ _ _ _ _ h3
          rw [validStartRow_three] at hv0
          rw [validStartRow_zero] at hv1
          rw [validStartRow_one] at hv2
          rw [validStartRow_two] at hv3
          refine ⟨eq_of_beq hv0, hne1, ?_, hne2, ?_, hne3, ?_⟩
          · rw [hc1]; exact hv1
          · rw [hc2]; exact eq_of_beq hv2
          · rw [hc3]; exact hv3

theorem getReadFromBuffer_ctrlZ (buf : List Char) (eof : Bool)
    (h : FASTQReader.getReadFromBuffer buf eof = .ctrlZ) : eof = true := by
  unfold FASTQReader.getReadFromBuffer at h
  cases h0 : parseLine buf eof 3 0 with
  | fatal => simp [h0] at h
  | ctrlZ => exact parseLine_ctrlZ _ _ _ _ h0
  | ok l0 s1 =>
    cases h1 : parseLine buf eof 0 s1 with
    | fatal => simp [h0, h1] at h
    | ctrlZ => exact parseLine_ctrlZ _ _ _ _ h1
    | ok l1 s2 =>
      cases h2 : parseLine buf eof 1 s2 with
      | fatal => simp [h0, h1, h2] at h
      | ctrlZ => exact parseLine_ctrlZ _ _ _ _ h2
      | ok l2 s3 =>
        cases h3 : parseLine buf eof 2 s3 with
        | fatal => simp [h0, h1, h2, h3] at h
        | ctrlZ => exact parseLine_ctrlZ _ _ _ _ h3
        | ok l3 s4 => simp [h0, h1, h2, h3] at h

/-! ## Read-model lemmas -/

theorem usub_of_le (a b : Nat) (h : b ≤ a) : usub a b = a - b := by
  simp [usub, h]

theorem Read.backClipLen_le (q : List Char) (d : Nat) : Read.backClipLen q d ≤ d := by
  induction d with
  | zero => simp [Read.backClipLen]
  | succ n ih =>
    unfold Read.backClipLen
    split
    · omega
    · omega

theorem Read.frontClipLen_le (q : List Char) (dl : Nat) : Read.frontClipLen q dl ≤ dl :=
  Nat.min_le_right _ _

theorem length_revCompBytes (l : List Char) (L : Nat) :
    (Read.revCompBytes l L).length = L := by
  simp [Read.revCompBytes]

theorem length_revQualBytes (l : List Char) (L : Nat) :
    (Read.revQualBytes l L).length = L := by
  simp [Read.revQualBytes]

/-- `init` establishes well-formedness (the quality span the C callers hand
over has the data span's length, and `unsigned` lengths are below `2^32`). -/
theorem wfRead_init (i_id i_data i_quality : List Char)
    (a1 a2 a3 a4 a5 a6 a7 : Nat) (rn : List Char) (pn : Nat)
    (hq : i_quality.length = i_data.length) (hlen : i_data.length < 2 ^ 32) :
    wfRead (Read.init i_id i_data i_quality a1 a2 a3 a4 a5 a6 a7 rn pn) := by
  unfold wfRead Read.init
  by_cases hlc : i_data.any isLowerCaseByte = true <;>
    simp [hlc, Read.unclippedDataBytes, Read.unclippedQualityBytes, hq, hlen] <;>
    omega

theorem wfRead_init5 (i_id i_data i_quality : List Char)
    (hq : i_quality.length = i_data.length) (hlen : i_data.length < 2 ^ 32) :
    wfRead (Read.init5 i_id i_data i_quality) :=
  wfRead_init i_id i_data i_quality _ _ _ _ _ _ _ _ _ hq hlen

theorem Read.clipDl2_le (r : Read) (c : ReadClippingType) :
    Read.clipDl2 r c false ≤ r.unclippedLength := by
  simp only [Read.clipDl2]
  rw [if_neg (by simp)]
  split
  · exact Read.backClipLen_le _ _
  · exact Nat.le_refl _

theorem Read.clipFc2_le (r : Read) (c : ReadClippingType) :
    Read.clipFc2 r c false ≤ Read.clipDl2 r c false := by
  simp only [Read.clipFc2]
  rw [if_neg (by simp)]
  split
  · exact Read.frontClipLen_le _ _
  · exact Nat.zero_le _

/-- `clip` (without the maintain-original-clipping variant) preserves
well-formedness. -/
theorem wfRead_clip (r : Read) (c : ReadClippingType) (h : wfRead r) :
    wfRead (r.clip c false) := by
  obtain ⟨h1, h2, h3, h4, h5, h6, h7, h8, h9, h10, h11, h12⟩ := h
  unfold Read.clip
  split
  · exact ⟨h1, h2, h3, h4, h5, h6, h7, h8, h9, h10, h11, h12⟩
  · refine ⟨?_, by simp, by simp, h4, h5, h6, h7, h8, h9, h10,
      fun hdir => h11 hdir, fun hdir => h12 hdir⟩
    have ha := Read.clipFc2_le r c
    have hb := Read.clipDl2_le r c
    show Read.clipFc2 r c false +
        usub (Read.clipDl2 r c false) (Read.clipFc2 r c false) ≤ r.unclippedLength
    rw [usub_of_le _ _ ha]
    omega

/-- `becomeRC` preserves well-formedness. -/
theorem wfRead_becomeRC (r : Read) (h : wfRead r) : wfRead r.becomeRC := by
  obtain ⟨h1, h2, h3, h4, h5, h6, h7, h8, h9, h10, h11, h12⟩ := h
  have e1 : usub r.unclippedLength r.dataLength =
      r.unclippedLength - r.dataLength := usub_of_le _ _ (by omega)
  have e2 : usub (r.unclippedLength - r.dataLength) r.frontClippedLength =
      r.unclippedLength - r.dataLength - r.frontClippedLength :=
    usub_of_le _ _ (by omega)
  by_cases hdir : r.currentReadDirection = Direction.RC
  · obtain ⟨hds, hqs, hrc⟩ := h11 hdir
    unfold Read.becomeRC
    rw [if_pos hdir]
    refine ⟨by simp [e1, e2]; omega, by simp, by simp, h4, h5, h6, h7, h8, h9,
      by simpa using h10, ?_, ?_⟩
    · intro hd
      simp at hd
    · intro _
      constructor
      · simp
      · simp
  · have hfwd : r.currentReadDirection = Direction.FORWARD := by
      cases hd2 : r.currentReadDirection
      · rfl
      · exact absurd hd2 hdir
    obtain ⟨hds, hqs⟩ := h12 hfwd
    cases hrc : r.rcData with
    | some l =>
      rw [hrc] at h8 h10
      unfold Read.becomeRC
      rw [if_neg hdir, hrc]
      simp only [Option.isSome_some, if_pos rfl]
      refine ⟨by simp [e1, e2]; omega, by simp, by simp, h4, h5, h6, h7, ?_, h9,
        ?_, ?_, ?_⟩
      · intro l2 hl2
        simp only at hl2
        exact h8 l2 hl2
      · simpa using h10
      · intro _
        refine ⟨by simp, by simp, by simp⟩
      · intro hd
        simp at hd
    | none =>
      unfold Read.becomeRC
      rw [if_neg hdir, hrc]
      simp only [Option.isSome_none, Bool.false_eq_true, if_neg (by simp : ¬False)]
      refine ⟨by simp [e1, e2]; omega, by simp, by simp, h4, h5, h6, h7, ?_, ?_,
        by simp, ?_, ?_⟩
      · intro l2 hl2
        simp only [Option.some.injEq] at hl2
        rw [← hl2, length_revCompBytes]
      · intro l2 hl2
        simp only [Option.some.injEq] at hl2
        rw [← hl2, length_revQualBytes]
      · intro _
        refine ⟨by simp, by simp, by simp⟩
      · intro hd
        simp at hd

/-! ## Equation lemmas for the Read operations -/

theorem clippingState_clip (r : Read) (c : ReadClippingType) (m : Bool) :
    (Read.clip r c m).clippingState = c := by
  unfold Read.clip
  split
  · rename_i heq
    exact heq.symm
  · rfl

/-- The early return of `Read::clip` when the read is already in the
requested clipping state (Read.h lines 446-451). -/
theorem clip_of_state_eq (r : Read) (c : ReadClippingType) (m : Bool)
    (h : r.clippingState = c) : Read.clip r c m = r := by
  unfold Read.clip
  rw [if_pos h.symm]

/-- The recompute path of `Read::clip` as a record update. -/
theorem clip_eq_of_ne (r : Read) (c : ReadClippingType) (m : Bool)
    (h : ¬ c = r.clippingState) :
    Read.clip r c m =
      { r with
        dataLength := usub (Read.clipDl2 r c m) (Read.clipFc2 r c m)
        frontClippedLength := Read.clipFc2 r c m
        dataOffset := Read.clipFc2 r c m
        qualOffset := Read.clipFc2 r c m
        clippingState := c } := by
  unfold Read.clip
  rw [if_neg h]

/-- The RC-to-forward branch of `Read::becomeRC` as a record update. -/
theorem becomeRC_of_rc (r : Read) (h : r.currentReadDirection = Direction.RC) :
    r.becomeRC = { r with
      dataSrc := if r.upcaseForwardRead.isSome then DataSrc.upcase else DataSrc.external
      qualSrc := DataSrc.external
      currentReadDirection := Direction.FORWARD
      frontClippedLength := usub (usub r.unclippedLength r.dataLength) r.frontClippedLength
      dataOffset := usub (usub r.unclippedLength r.dataLength) r.frontClippedLength
      qualOffset := usub (usub r.unclippedLength r.dataLength) r.frontClippedLength
      originalFrontClipping := r.originalBackClipping
      originalBackClipping := r.originalFrontClipping
      originalFrontHardClipping := r.originalBackHardClipping
      originalBackHardClipping := r.originalFrontHardClipping } := by
  unfold Read.becomeRC
  rw [if_pos h]

/-- The forward-to-RC branch of `Read::becomeRC` when the reverse-complement
strings are already cached. -/
theorem becomeRC_of_fwd_cached (r : Read)
    (hdir : r.currentReadDirection = Direction.FORWARD) (l : List Char)
    (hrc : r.rcData = some l) :
    r.becomeRC = { r with
      dataSrc := DataSrc.rc
      qualSrc := DataSrc.rc
      currentReadDirection := Direction.RC
      frontClippedLength := usub (usub r.unclippedLength r.dataLength) r.frontClippedLength
      dataOffset := usub (usub r.unclippedLength r.dataLength) r.frontClippedLength
      qualOffset := usub (usub r.unclippedLength r.dataLength) r.frontClippedLength
      originalFrontClipping := r.originalBackClipping
      originalBackClipping := r.originalFrontClipping
      originalFrontHardClipping := r.originalBackHardClipping
      originalBackHardClipping := r.originalFrontHardClipping } := by
  unfold Read.becomeRC
  rw [if_neg (by rw [hdir]; simp), hrc]
  rw [if_pos (by simp)]

/-- The forward-to-RC branch of `Read::becomeRC` computing and caching the
reverse-complement strings on first use. -/
theorem becomeRC_of_fwd_fresh (r : Read)
    (hdir : r.currentReadDirection = Direction.FORWARD)
    (hrc : r.rcData = none) :
    r.becomeRC = { r with
      rcData := some (Read.revCompBytes r.unclippedDataBytes r.unclippedLength)
      rcQuality := some (Read.revQualBytes r.unclippedQualityBytes r.unclippedLength)
      localBufferAllocationOffset := r.localBufferAllocationOffset + 2 * r.unclippedLength
      dataSrc := DataSrc.rc
      qualSrc := DataSrc.rc
      currentReadDirection := Direction.RC
      frontClippedLength := usub (usub r.unclippedLength r.dataLength) r.frontClippedLength
      dataOffset := usub (usub r.unclippedLength r.dataLength) r.frontClippedLength
      qualOffset := usub (usub r.unclippedLength r.dataLength) r.frontClippedLength
      originalFrontClipping := r.originalBackClipping
      originalBackClipping := r.originalFrontClipping
      originalFrontHardClipping := r.originalBackHardClipping
      originalBackHardClipping := r.originalFrontHardClipping } := by
  unfold Read.becomeRC
  rw [if_neg (by rw [hdir]; simp), hrc]
  rw [if_neg (by simp)]

/-- Two successive clips on a freshly initialized baseline collapse to the
second clip: `clip` always recomputes from the unclipped view. -/
theorem clip_clip_fresh (r : Read) (A B : ReadClippingType) (m : Bool)
    (hst : r.clippingState = ReadClippingType.NoClipping)
    (hdl : r.dataLength = r.unclippedLength)
    (hfc : r.frontClippedLength = 0)
    (hdo : r.dataOffset = 0) (hqo : r.qualOffset = 0) :
    Read.clip (Read.clip r A m) B m = Read.clip r B m := by
  by_cases hA : A = r.clippingState
  · rw [clip_of_state_eq r A m hA.symm]
  · by_cases hB : B = A
    · subst hB
      exact clip_of_state_eq _ _ _ (clippingState_clip r B m)
    · rw [clip_eq_of_ne r A m hA]
      by_cases hB0 : B = r.clippingState
      · rw [clip_of_state_eq r B m hB0.symm]
        have hBN : B = ReadClippingType.NoClipping := hB0.trans hst
        subst hBN
        rw [clip_eq_of_ne _ ReadClippingType.NoClipping m (by exact hB)]
        have hdl2 : Read.clipDl2
            { r with
              dataLength := usub (Read.clipDl2 r A m) (Read.clipFc2 r A m)
              frontClippedLength := Read.clipFc2 r A m
              dataOffset := Read.clipFc2 r A m
              qualOffset := Read.clipFc2 r A m
              clippingState := A } ReadClippingType.NoClipping m =
            r.unclippedLength := by
          simp [Read.clipDl2]
        have hfc2 : Read.clipFc2
            { r with
              dataLength := usub (Read.clipDl2 r A m) (Read.clipFc2 r A m)
              frontClippedLength := Read.clipFc2 r A m
              dataOffset := Read.clipFc2 r A m
              qualOffset := Read.clipFc2 r A m
              clippingState := A } ReadClippingType.NoClipping m = 0 := by
          simp [Read.clipFc2]
        rw [hdl2, hfc2, usub_of_le _ _ (Nat.zero_le _)]
        ext <;> simp [hst, hdl, hfc, hdo, hqo]
      · rw [clip_eq_of_ne _ B m (by exact hB), clip_eq_of_ne r B m hB0]
        rfl

/-! ## Claim theorems -/

/-- Claim C1 (amended).  For a buffer holding the bytes of a well-formed
FASTQ record from byte offset `k` on, followed by further well-formed
records, `FASTQReader::skipPartialRecord` advances the data cursor exactly to
the start of the next complete record (offset `k = 0`: the window itself, a
zero advance; `k > 0`: the following record), and returns `false` (`none`)
exactly when no complete record begins at or after the offset — provided
(the amendment) that an `@` at the offset does not sit strictly inside the
header line.  That is the only exclusion: an `@` on the plus line past its
`+`, or anywhere on the quality line, is recovered from correctly, because
the three-line lookahead there runs into the next record's header and fails.
Without the proviso the claim is false: an `@` in the middle of the header
line is falsely accepted as a record start (see the counterexample). -/
theorem C1_boundary_recovery_amended (r : FqRecord) (rs : List FqRecord) (k : Nat)
    (hr : wfRecord r) (hrs : ∀ x ∈ rs, wfRecord x) (hk : k < (recBytes r).length)
    (hat : charAt ((recBytes r).drop k) 0 = '@' → k = 0 ∨ r.hdr.length ≤ k) :
    FASTQReader.skipPartialRecord ((recBytes r).drop k ++ flatRecs rs) =
      if k = 0 then some 0
      else if rs = [] then none else some ((recBytes r).length - k) :=
  skipPartialRecord_boundary r rs k hr hrs hk hat

/-- Witness for C1 at an offset the proviso admits although its byte is `@`:
offset 12 of the first record sits strictly inside the quality line `!@!!`,
on its `@`; recovery still advances exactly 4 bytes, to the start of the
second record. -/
theorem C1_boundary_recovery_amended_witness :
    FASTQReader.skipPartialRecord
        ((recBytes ⟨("@r1").toList, ("ACGT").toList, ("+").toList, ("!@!!").toList⟩).drop 12 ++
          flatRecs [⟨("@r2").toList, ("GGGG").toList, ("+").toList, ("!!!!").toList⟩]) =
      some 4 := by
  have h := C1_boundary_recovery_amended
      ⟨("@r1").toList, ("ACGT").toList, ("+").toList, ("!@!!").toList⟩
      [⟨("@r2").toList, ("GGGG").toList, ("+").toList, ("!!!!").toList⟩] 12
      (by decide) (by decide) (by decide) (by decide)
  exact h.trans (by decide)

/-- Counterexample to C1 as stated.  The buffer holds two well-formed
records; offset 3 falls inside the first record's header line `@ab@cd`, on
its second `@`.  The record starts are bytes 0 and 19, so the claim requires
recovery to advance the cursor to byte 19 (an advance of 16), but
`skipPartialRecord` accepts the mid-header position itself (an advance of 0),
which is not the start of any record. -/
theorem C1_counterexample :
    wfRecord ⟨("@ab@cd").toList, ("ACGT").toList, ("+").toList, ("!!!!").toList⟩ ∧
    wfRecord ⟨("@r2").toList, ("GGGG").toList, ("+").toList, ("!!!!").toList⟩ ∧
    3 < (recBytes ⟨("@ab@cd").toList, ("ACGT").toList, ("+").toList, ("!!!!").toList⟩).length ∧
    FASTQReader.skipPartialRecord
        ((flatRecs [⟨("@ab@cd").toList, ("ACGT").toList, ("+").toList, ("!!!!").toList⟩,
                    ⟨("@r2").toList, ("GGGG").toList, ("+").toList, ("!!!!").toList⟩]).drop 3) =
      some 0 ∧
    3 + 0 ≠ 0 ∧
    3 + 0 ≠ (recBytes ⟨("@ab@cd").toList, ("ACGT").toList, ("+").toList, ("!!!!").toList⟩).length := by
  decide

/-- Claim C2 (amended).  For every buffer handed to the sequential parser
`FASTQReader::getReadFromBuffer`: a successful parse implies each of the four
lines was non-empty and had a valid *starting* character — line 1 begins
`@`, line 2 *begins with* a supported base symbol, line 3 begins `+`, line 4
*begins with* printable ASCII — and the only non-fatal early return is the
lone trailing 0x1a byte at end-of-input.  (The claim as stated — all of
line 2 checked, and line 4 checked to be printable of the same length as
line 2 — is false: only the first character of lines 2 and 4 is validated
and the quality line's length is never compared; see the counterexample.) -/
theorem C2_parser_checks_amended (buf : List Char) (eof : Bool) :
    (∀ p n, FASTQReader.getReadFromBuffer buf eof = .ok p n →
      charAt buf 0 = '@' ∧
      p.data ≠ [] ∧ supportedBase (charAt p.data 0) = true ∧
      p.plusLine ≠ [] ∧ charAt p.plusLine 0 = '+' ∧
      p.qualityLine ≠ [] ∧ printableAscii (charAt p.qualityLine 0) = true) ∧
    (FASTQReader.getReadFromBuffer buf eof = .ctrlZ → eof = true) :=
  ⟨fun p n h => getReadFromBuffer_ok_facts buf eof p n h,
   fun h => getReadFromBuffer_ctrlZ buf eof h⟩

/-- Witness for C2 at a concrete well-formed record. -/
theorem C2_parser_checks_amended_witness :
    charAt (("@r\nAC\n+\n!!\n").toList) 0 = '@' ∧
    supportedBase (charAt (("AC").toList) 0) = true := by
  have h := (C2_parser_checks_amended (("@r\nAC\n+\n!!\n").toList) false).1
      ⟨("r").toList, ("AC").toList, ("+").toList, ("!!").toList⟩ 11 (by decide)
  exact ⟨h.1, h.2.2.1⟩

/-- Counterexample to C2 as stated: the base line `AZ` contains `Z`, which
is not a supported base symbol, yet the parse succeeds (returns the record
with 11 bytes consumed) instead of exiting fatally — only the first
character of the base line is validated. -/
theorem C2_counterexample :
    FASTQReader.getReadFromBuffer (("@r\nAZ\n+\n!!\n").toList) false =
      ParseResult.ok ⟨("r").toList, ("AZ").toList, ("+").toList, ("!!").toList⟩ 11 ∧
    'Z' ∈ ("AZ").toList ∧ supportedBase 'Z' = false := by
  decide

/-- Claim C3.  During boundary recovery, a candidate is accepted on the spot
(`sprRun = some 0`) only if the candidate byte is `@` and the following line
decomposes as a run of accepted base characters — all of which lie in the
supported-base alphabet (A/C/G/T/N plus ambiguity codes, case-insensitive) —
terminated by a newline optionally preceded by a carriage return, followed by
a line starting with `+`.  And whenever the candidate's test fails, the
candidate advances to the next line (the loop recurses past the newline).
A line failing the supported-base test also fails the (narrower) scan
alphabet, so such a line is never accepted, by the first conjunct. -/
theorem C3_candidate_acceptance (l t : List Char) (hl : '\n' ∉ l) :
    (sprRun (l ++ '\n' :: t) = some 0 →
      charAt (l ++ '\n' :: t) 0 = '@' ∧
      ∃ bl t', ((t = bl ++ '\n' :: t') ∨ (t = bl ++ '\r' :: '\n' :: t')) ∧
        (∀ c ∈ bl, supportedBase c = true) ∧ charAt t' 0 = '+') ∧
    (¬(charAt (l ++ '\n' :: t) 0 = '@' ∧ acceptTest t = true) →
      sprRun (l ++ '\n' :: t) = Option.map (· + (l.length + 1)) (sprRun t)) := by
  constructor
  · intro h0
    obtain ⟨hat2, hacc⟩ := sprRun_some_zero l t hl h0
    obtain ⟨bl, t', hdec, hcode, hplus⟩ := acceptTest_decomp t hacc
    exact ⟨hat2, bl, t', hdec,
      fun c hc => supportedBase_of_isCodeBase c (hcode c hc), hplus⟩
  · intro h
    exact sprRun_skip l t hl h

/-- Witness for C3: the candidate `@x` with base line `ACGT` and a following
`+` line is accepted, and the theorem yields the decomposition. -/
theorem C3_candidate_acceptance_witness :
    ('\n' ∉ ("@x").toList) ∧
    (charAt (("@x").toList ++ '\n' :: ("ACGT\n+\n!!!!\n").toList) 0 = '@' ∧
      ∃ bl t', ((("ACGT\n+\n!!!!\n").toList = bl ++ '\n' :: t') ∨
          (("ACGT\n+\n!!!!\n").toList = bl ++ '\r' :: '\n' :: t')) ∧
        (∀ c ∈ bl, supportedBase c = true) ∧ charAt t' 0 = '+') := by
  refine ⟨by decide, ?_⟩
  exact (C3_candidate_acceptance (("@x").toList) (("ACGT\n+\n!!!!\n").toList)
    (by decide)).1 (by decide)

/-- Claim C8.  `PairedFASTQReader::getNextReadPair` over the two underlying
single-file readers: both produce a record in the same call — return true
with the pair; both exhausted in the same call — return false; exactly one
exhausted while the other produces — the fatal "files don't match"
divergence exit, never a silent truncation. -/
theorem C8_paired_files (b0 b1 : List Char) (e0 e1 : Bool) :
    (∀ p0 c0 p1 c1, FASTQReader.getNextRead b0 e0 = .got p0 c0 →
        FASTQReader.getNextRead b1 e1 = .got p1 c1 →
        PairedFASTQReader.getNextReadPair b0 b1 e0 e1 = .pairTrue p0 p1) ∧
    (FASTQReader.getNextRead b0 e0 = .noMore →
        FASTQReader.getNextRead b1 e1 = .noMore →
        PairedFASTQReader.getNextReadPair b0 b1 e0 e1 = .pairFalse) ∧
    (∀ p1 c1, FASTQReader.getNextRead b0 e0 = .noMore →
        FASTQReader.getNextRead b1 e1 = .got p1 c1 →
        PairedFASTQReader.getNextReadPair b0 b1 e0 e1 = .filesDontMatch) ∧
    (∀ p0 c0, FASTQReader.getNextRead b0 e0 = .got p0 c0 →
        FASTQReader.getNextRead b1 e1 = .noMore →
        PairedFASTQReader.getNextReadPair b0 b1 e0 e1 = .filesDontMatch) :=
  ⟨fun p0 c0 p1 c1 h0 h1 => by
      simp [PairedFASTQReader.getNextReadPair, h0, h1],
   fun h0 h1 => by simp [PairedFASTQReader.getNextReadPair, h0, h1],
   fun p1 c1 h0 h1 => by simp [PairedFASTQReader.getNextReadPair, h0, h1],
   fun p0 c0 h0 h1 => by simp [PairedFASTQReader.getNextReadPair, h0, h1]⟩

/-- Witness for C8: both readers hold one record; the pair is returned. -/
theorem C8_paired_files_witness :
    PairedFASTQReader.getNextReadPair (("@r\nA\n+\n!\n").toList)
        (("@r\nA\n+\n!\n").toList) false false =
      PairResult.pairTrue
        (some ⟨("r").toList, ("A").toList, ("+").toList, ("!").toList⟩)
        (some ⟨("r").toList, ("A").toList, ("+").toList, ("!").toList⟩) :=
  (C8_paired_files (("@r\nA\n+\n!\n").toList) (("@r\nA\n+\n!\n").toList)
      false false).1
    (some ⟨("r").toList, ("A").toList, ("+").toList, ("!").toList⟩) 9
    (some ⟨("r").toList, ("A").toList, ("+").toList, ("!").toList⟩) 9
    (by decide) (by decide)

/-- Claim C9 (amended).  When the first record of an interleaved
`getNextReadPair` call consumes every remaining valid byte (an odd record
count), the reader prints the "odd number of reads.  Ignoring the last one."
diagnostic and returns false — a normal end-of-input-style return discarding
the last record — rather than exiting fatally as the claim states (see the
counterexample). -/
theorem C9_odd_count_amended (rem : List Char) (eof : Bool) (p : FqParsed)
    (hne : rem ≠ []) (h : FASTQReader.getReadFromBuffer rem eof = .ok p rem.length) :
    PairedInterleavedFASTQReader.getNextReadPair rem eof = .oddWarning := by
  simp [PairedInterleavedFASTQReader.getNextReadPair, hne, h]

/-- Witness for C9 (amended) at a single trailing `/1` record. -/
theorem C9_odd_count_amended_witness :
    PairedInterleavedFASTQReader.getNextReadPair (("@r/1\nA\n+\n!\n").toList) true =
      IPairResult.oddWarning :=
  C9_odd_count_amended (("@r/1\nA\n+\n!\n").toList) true
    ⟨("r/1").toList, ("A").toList, ("+").toList, ("!").toList⟩
    (by decide) (by decide)

/-- Counterexample to C9 as stated: an interleaved input holding a single
(odd-count) record makes `getNextReadPair` take the warning-and-return-false
path (`oddWarning`, FASTQ.cpp lines 369-372), which is none of the model's
fatal (`soft_exit`) outcomes — the process does not terminate with non-zero
status. -/
theorem C9_counterexample :
    PairedInterleavedFASTQReader.getNextReadPair (("@r/1\nA\n+\n!\n").toList) true =
      IPairResult.oddWarning ∧
    IPairResult.oddWarning ≠ IPairResult.fatalParse ∧
    IPairResult.oddWarning ≠ IPairResult.fatalNoSlash1 ∧
    IPairResult.oddWarning ≠ IPairResult.fatalNoSlash2 := by
  decide

/-- Claim C4.  The interleaved paired reader:
(1) a successful `getNextReadPair` returns two consecutive records whose ids
end `/1` then `/2`;
(2, 3) when two records are read but the suffixes are not `/1` then `/2`,
the call exits fatally (the two `soft_exit` outcomes);
(4) in the reinit peek, an id ending in neither `/1` nor `/2` is fatal;
(5) a leading `/2` record is an orphan — it is skipped and the record after
it must end `/1`, fatally otherwise;
(6) after a skipped orphan the window is positioned at the following `/1`
record;
(7) concretely, the input with suffixes `/2,/1,/2,/1,/2` (reinit at a
non-zero offset, exercising boundary recovery) drops the leading orphan and
yields exactly the two correctly ordered pairs, then a false return. -/
theorem C4_interleaved_pairing :
    (∀ rem eof p0 p1 rest,
        PairedInterleavedFASTQReader.getNextReadPair rem eof =
          IPairResult.pair p0 p1 rest →
        idEndsWith p0 '1' = true ∧ idEndsWith p1 '2' = true) ∧
    (∀ rem eof p0 c0 p1 c1, rem ≠ [] →
        FASTQReader.getReadFromBuffer rem eof = .ok p0 c0 → c0 ≠ rem.length →
        FASTQReader.getReadFromBuffer (rem.drop c0) eof = .ok p1 c1 →
        idEndsWith p0 '1' = false →
        PairedInterleavedFASTQReader.getNextReadPair rem eof =
          IPairResult.fatalNoSlash1) ∧
    (∀ rem eof p0 c0 p1 c1, rem ≠ [] →
        FASTQReader.getReadFromBuffer rem eof = .ok p0 c0 → c0 ≠ rem.length →
        FASTQReader.getReadFromBuffer (rem.drop c0) eof = .ok p1 c1 →
        idEndsWith p0 '1' = true → idEndsWith p1 '2' = false →
        PairedInterleavedFASTQReader.getNextReadPair rem eof =
          IPairResult.fatalNoSlash2) ∧
    (∀ buf1 eof p c, buf1 ≠ [] →
        FASTQReader.getReadFromBuffer buf1 eof = .ok p c →
        ¬ PairedInterleavedFASTQReader.reinitSuffixOk p →
        PairedInterleavedFASTQReader.reinitPeek buf1 eof =
          ReinitResult.fatalBadSuffix) ∧
    (∀ buf1 eof p c p2 c2, buf1 ≠ [] →
        FASTQReader.getReadFromBuffer buf1 eof = .ok p c →
        PairedInterleavedFASTQReader.reinitSuffixOk p →
        charAt p.id (p.id.length - 1) = '2' →
        buf1.drop c ≠ [] →
        FASTQReader.getReadFromBuffer (buf1.drop c) eof = .ok p2 c2 →
        ¬(2 ≤ p2.id.length ∧ charAt p2.id (p2.id.length - 2) = '/' ∧
            charAt p2.id (p2.id.length - 1) = '1') →
        PairedInterleavedFASTQReader.reinitPeek buf1 eof =
          ReinitResult.fatalOrphanNotFollowedBySlash1) ∧
    (∀ buf1 eof p c p2 c2, buf1 ≠ [] →
        FASTQReader.getReadFromBuffer buf1 eof = .ok p c →
        PairedInterleavedFASTQReader.reinitSuffixOk p →
        charAt p.id (p.id.length - 1) = '2' →
        buf1.drop c ≠ [] →
        FASTQReader.getReadFromBuffer (buf1.drop c) eof = .ok p2 c2 →
        (2 ≤ p2.id.length ∧ charAt p2.id (p2.id.length - 2) = '/' ∧
            charAt p2.id (p2.id.length - 1) = '1') →
        PairedInterleavedFASTQReader.reinitPeek buf1 eof =
          ReinitResult.ready (buf1.drop c)) ∧
    (PairedInterleavedFASTQReader.reinit
        (("@a/2\nAA\n+\n!!\n@b/1\nCC\n+\n!!\n@c/2\nGG\n+\n!!\n@d/1\nTT\n+\n!!\n@e/2\nNN\n+\n!!\n").toList)
        1 true =
      ReinitResult.ready
        ((("@a/2\nAA\n+\n!!\n@b/1\nCC\n+\n!!\n@c/2\nGG\n+\n!!\n@d/1\nTT\n+\n!!\n@e/2\nNN\n+\n!!\n").toList).drop 13) ∧
     (PairedInterleavedFASTQReader.run 3
        ((("@a/2\nAA\n+\n!!\n@b/1\nCC\n+\n!!\n@c/2\nGG\n+\n!!\n@d/1\nTT\n+\n!!\n@e/2\nNN\n+\n!!\n").toList).drop 13)
        true).1.map (fun pq => (pq.1.id, pq.2.id)) =
      [(("b/1").toList, ("c/2").toList), (("d/1").toList, ("e/2").toList)] ∧
     (PairedInterleavedFASTQReader.run 3
        ((("@a/2\nAA\n+\n!!\n@b/1\nCC\n+\n!!\n@c/2\nGG\n+\n!!\n@d/1\nTT\n+\n!!\n@e/2\nNN\n+\n!!\n").toList).drop 13)
        true).2 = IPairResult.noMore) := by
  refine ⟨?_, ?_, ?_, ?_, ?_, ?_, by decide⟩
  · intro rem eof p0 p1 rest h
    by_cases hrem : rem = []
    · simp [PairedInterleavedFASTQReader.getNextReadPair, hrem] at h
    · cases h0 : FASTQReader.getReadFromBuffer rem eof with
      | fatal => simp [PairedInterleavedFASTQReader.getNextReadPair, hrem, h0] at h
      | ctrlZ => simp [PairedInterleavedFASTQReader.getNextReadPair, hrem, h0] at h
      | ok q0 d0 =>
        by_cases hc0 : d0 = rem.length
        · simp [PairedInterleavedFASTQReader.getNextReadPair, hrem, h0, hc0] at h
        · cases h1 : FASTQReader.getReadFromBuffer (rem.drop d0) eof with
          | fatal =>
            simp [PairedInterleavedFASTQReader.getNextReadPair, hrem, h0, hc0, h1] at h
          | ctrlZ =>
            simp [PairedInterleavedFASTQReader.getNextReadPair, hrem, h0, hc0, h1] at h
          | ok q1 d1 =>
            by_cases he1 : idEndsWith q0 '1' = true
            · by_cases he2 : idEndsWith q1 '2' = true
              · simp [PairedInterleavedFASTQReader.getNextReadPair, hrem, h0, hc0, h1,
                  he1, he2] at h
                obtain ⟨e0, e1, e2⟩ := h
                subst e0
                subst e1
                exact ⟨he1, he2⟩
              · simp [PairedInterleavedFASTQReader.getNextReadPair, hrem, h0, hc0, h1,
                  he1, he2] at h
            · simp [PairedInterleavedFASTQReader.getNextReadPair, hrem, h0, hc0, h1,
                he1] at h
  · intro rem eof p0 c0 p1 c1 hrem h0 hc0 h1 hfalse
    simp [PairedInterleavedFASTQReader.getNextReadPair, hrem, h0, hc0, h1, hfalse]
  · intro rem eof p0 c0 p1 c1 hrem h0 hc0 h1 htrue hfalse
    simp [PairedInterleavedFASTQReader.getNextReadPair, hrem, h0, hc0, h1, htrue, hfalse]
  · intro buf1 eof p c hne h0 hbad
    simp [PairedInterleavedFASTQReader.reinitPeek, hne, h0, hbad]
  · intro buf1 eof p c p2 c2 hne h0 hsuf h2 hdne h1 hnot1
    simp [PairedInterleavedFASTQReader.reinitPeek, hne, h0, hsuf, h2, hdne, h1, hnot1]
  · intro buf1 eof p c p2 c2 hne h0 hsuf h2 hdne h1 hp2ok
    simp [PairedInterleavedFASTQReader.reinitPeek, hne, h0, hsuf, h2, hdne, h1, hp2ok]

/-- Witness for C4 at a concrete two-record window ending `/1` then `/2`. -/
theorem C4_interleaved_pairing_witness :
    idEndsWith (⟨("x/1").toList, ("AA").toList, ("+").toList, ("!!").toList⟩ : FqParsed) '1' = true ∧
    idEndsWith (⟨("x/2").toList, ("GG").toList, ("+").toList, ("!!").toList⟩ : FqParsed) '2' = true :=
  C4_interleaved_pairing.1 (("@x/1\nAA\n+\n!!\n@x/2\nGG\n+\n!!\n").toList) true
    ⟨("x/1").toList, ("AA").toList, ("+").toList, ("!!").toList⟩
    ⟨("x/2").toList, ("GG").toList, ("+").toList, ("!!").toList⟩
    ((("@x/1\nAA\n+\n!!\n@x/2\nGG\n+\n!!\n").toList).drop 26)
    (by decide)

/-- Claim C5.  `Read::clip` applied twice with the same mode equals one
application (the second call is the early return on a matching clipping
state), and `clip(A)` then `clip(B)` on a freshly initialized read equals
`clip(B)` applied directly to that read — clipping always recomputes from
the unclipped baseline and never compounds.  Both parts are full structural
equalities of the model's `Read` state, which subsumes the claimed equality
of the data pointer, quality pointer, `dataLength`, `frontClippedLength` and
`clippingState`. -/
theorem C5_clip_recomputes :
    (∀ (r : Read) (A : ReadClippingType) (m : Bool),
        Read.clip (Read.clip r A m) A m = Read.clip r A m) ∧
    (∀ (i_id i_data i_quality : List Char)
        (a1 a2 a3 a4 a5 a6 a7 : Nat) (rn : List Char) (pn : Nat)
        (A B : ReadClippingType) (m : Bool),
        Read.clip
            (Read.clip (Read.init i_id i_data i_quality a1 a2 a3 a4 a5 a6 a7 rn pn) A m)
            B m =
          Read.clip (Read.init i_id i_data i_quality a1 a2 a3 a4 a5 a6 a7 rn pn) B m) := by
  constructor
  · intro r A m
    exact clip_of_state_eq _ _ _ (clippingState_clip r A m)
  · intro i_id i_data i_quality a1 a2 a3 a4 a5 a6 a7 rn pn A B m
    exact clip_clip_fresh _ A B m rfl rfl rfl rfl rfl

/-- Claim C7 (amended).  `Read::init` establishes, and `clip` (any mode) and
`becomeRC` preserve, well-formedness, which contains the invariant
`frontClippedLength + dataLength ≤ unclippedLength`; and every well-formed
read keeps its `data` and `quality` offsets within the *closed* span
`[0, unclippedLength]`.  The half-open span of the claim as stated is
refuted by a fully front-clipped read (see the counterexample), which is why
`spanInvariant` uses `≤`. -/
theorem C7_read_invariant :
    (∀ (i_id i_data i_quality : List Char) (a1 a2 a3 a4 a5 a6 a7 : Nat)
        (rn : List Char) (pn : Nat),
        i_quality.length = i_data.length → i_data.length < 2 ^ 32 →
        wfRead (Read.init i_id i_data i_quality a1 a2 a3 a4 a5 a6 a7 rn pn) ∧
          spanInvariant (Read.init i_id i_data i_quality a1 a2 a3 a4 a5 a6 a7 rn pn)) ∧
    (∀ (r : Read) (c : ReadClippingType), wfRead r →
        wfRead (Read.clip r c false) ∧ spanInvariant (Read.clip r c false)) ∧
    (∀ r : Read, wfRead r → wfRead r.becomeRC ∧ spanInvariant r.becomeRC) := by
  have hspan : ∀ r : Read, wfRead r → spanInvariant r := by
    intro r hr
    obtain ⟨h1, h2, h3, _⟩ := hr
    exact ⟨h1, by omega, by omega⟩
  refine ⟨?_, ?_, ?_⟩
  · intro i_id i_data i_quality a1 a2 a3 a4 a5 a6 a7 rn pn hq hlen
    have hw := wfRead_init i_id i_data i_quality a1 a2 a3 a4 a5 a6 a7 rn pn hq hlen
    exact ⟨hw, hspan _ hw⟩
  · intro r c hr
    exact ⟨wfRead_clip r c hr, hspan _ (wfRead_clip r c hr)⟩
  · intro r hr
    exact ⟨wfRead_becomeRC r hr, hspan _ (wfRead_becomeRC r hr)⟩

/-- Witness for C7 at a concrete read. -/
theorem C7_read_invariant_witness :
    wfRead (Read.init [] (("ACGT").toList) (("!!!!").toList) 0 0 0 0 0 0 0 [] 0) ∧
    spanInvariant (Read.init [] (("ACGT").toList) (("!!!!").toList) 0 0 0 0 0 0 0 [] 0) :=
  C7_read_invariant.1 [] (("ACGT").toList) (("!!!!").toList) 0 0 0 0 0 0 0 [] 0
    (by decide) (by decide)

/-- Counterexample to C7 as stated: front-clipping a one-base read whose
quality is the `#` sentinel clips everything; the data pointer then sits at
`unclippedData + 1 = unclippedData + unclippedLength`, one past the end of
the half-open span `[unclippedData, unclippedData + unclippedLength)` the
claim asserts. -/
theorem C7_counterexample :
    ((Read.init5 [] (("A").toList) (("#").toList)).clip
        ReadClippingType.ClipFront false).dataOffset = 1 ∧
    ((Read.init5 [] (("A").toList) (("#").toList)).clip
        ReadClippingType.ClipFront false).unclippedLength = 1 ∧
    ¬(((Read.init5 [] (("A").toList) (("#").toList)).clip
        ReadClippingType.ClipFront false).dataOffset <
      ((Read.init5 [] (("A").toList) (("#").toList)).clip
        ReadClippingType.ClipFront false).unclippedLength) := by
  decide

/-- Claim C10.  `Read::init` fully resets the derived state: clipping state
`NoClipping`, direction `FORWARD`, `frontClippedLength` 0, `dataLength` and
`unclippedLength` equal to the supplied length, reverse-complement caches
cleared; and the upper-case handling: with no lower-case byte in the data
span, `getData()` aliases the caller's buffer (the local-buffer allocation
stays 0); otherwise it points at an upper-cased copy in the read's own
buffer while the caller's bytes are kept unmodified in `externalData`. -/
theorem C10_init_resets (i_id i_data i_quality : List Char)
    (a1 a2 a3 a4 a5 a6 a7 : Nat) (rn : List Char) (pn : Nat) :
    (Read.init i_id i_data i_quality a1 a2 a3 a4 a5 a6 a7 rn pn).clippingState =
      ReadClippingType.NoClipping ∧
    (Read.init i_id i_data i_quality a1 a2 a3 a4 a5 a6 a7 rn pn).currentReadDirection =
      Direction.FORWARD ∧
    (Read.init i_id i_data i_quality a1 a2 a3 a4 a5 a6 a7 rn pn).frontClippedLength = 0 ∧
    (Read.init i_id i_data i_quality a1 a2 a3 a4 a5 a6 a7 rn pn).dataLength = i_data.length ∧
    (Read.init i_id i_data i_quality a1 a2 a3 a4 a5 a6 a7 rn pn).unclippedLength = i_data.length ∧
    (Read.init i_id i_data i_quality a1 a2 a3 a4 a5 a6 a7 rn pn).rcData = none ∧
    (Read.init i_id i_data i_quality a1 a2 a3 a4 a5 a6 a7 rn pn).rcQuality = none ∧
    (Read.init i_id i_data i_quality a1 a2 a3 a4 a5 a6 a7 rn pn).externalData = i_data ∧
    (i_data.any isLowerCaseByte = false →
      (Read.init i_id i_data i_quality a1 a2 a3 a4 a5 a6 a7 rn pn).dataSrc = DataSrc.external ∧
      (Read.init i_id i_data i_quality a1 a2 a3 a4 a5 a6 a7 rn pn).upcaseForwardRead = none ∧
      (Read.init i_id i_data i_quality a1 a2 a3 a4 a5 a6 a7 rn pn).localBufferAllocationOffset = 0 ∧
      (Read.init i_id i_data i_quality a1 a2 a3 a4 a5 a6 a7 rn pn).getDataBytes = i_data) ∧
    (i_data.any isLowerCaseByte = true →
      (Read.init i_id i_data i_quality a1 a2 a3 a4 a5 a6 a7 rn pn).dataSrc = DataSrc.upcase ∧
      (Read.init i_id i_data i_quality a1 a2 a3 a4 a5 a6 a7 rn pn).upcaseForwardRead =
        some (i_data.map toUpperByte) ∧
      (Read.init i_id i_data i_quality a1 a2 a3 a4 a5 a6 a7 rn pn).localBufferAllocationOffset =
        i_data.length ∧
      (Read.init i_id i_data i_quality a1 a2 a3 a4 a5 a6 a7 rn pn).getDataBytes =
        i_data.map toUpperByte) := by
  by_cases hlc : i_data.any isLowerCaseByte = true <;>
    simp [hlc, Read.init, Read.getDataBytes, Read.unclippedDataBytes] <;>
    rw [List.drop_zero] <;>
    first
      | rw [← List.length_map i_data toUpperByte, List.take_length]
      | rw [List.take_length]

/-- Witness for C10 at concrete lower-case-containing data. -/
theorem C10_init_resets_witness :
    (Read.init [] (("aC").toList) (("!!").toList) 0 0 0 0 0 0 0 [] 0).upcaseForwardRead =
      some ((("aC").toList).map toUpperByte) ∧
    (("aC").toList).map toUpperByte = ("AC").toList := by
  refine ⟨?_, by decide⟩
  exact ((((((((C10_init_resets [] (("aC").toList) (("!!").toList)
    0 0 0 0 0 0 0 [] 0).2).2).2).2).2).2).2).2.2 (by decide) |>.2.1

/-- Claim C6.  For every well-formed read, in any clipping state and either
orientation, `becomeRC()` applied twice restores the pre-call state
byte-identically: the bytes visible through `getData()`/`getQuality()`, the
unclipped data and quality spans, `dataLength`, `frontClippedLength`, the
direction, and the original front/back clipping and hard-clipping fields. -/
theorem C6_becomeRC_involutive (r : Read) (h : wfRead r) :
    (r.becomeRC.becomeRC).getDataBytes = r.getDataBytes ∧
    (r.becomeRC.becomeRC).getQualityBytes = r.getQualityBytes ∧
    (r.becomeRC.becomeRC).unclippedDataBytes = r.unclippedDataBytes ∧
    (r.becomeRC.becomeRC).unclippedQualityBytes = r.unclippedQualityBytes ∧
    (r.becomeRC.becomeRC).dataLength = r.dataLength ∧
    (r.becomeRC.becomeRC).frontClippedLength = r.frontClippedLength ∧
    (r.becomeRC.becomeRC).currentReadDirection = r.currentReadDirection ∧
    (r.becomeRC.becomeRC).originalFrontClipping = r.originalFrontClipping ∧
    (r.becomeRC.becomeRC).originalBackClipping = r.originalBackClipping ∧
    (r.becomeRC.becomeRC).originalFrontHardClipping = r.originalFrontHardClipping ∧
    (r.becomeRC.becomeRC).originalBackHardClipping = r.originalBackHardClipping := by
  obtain ⟨h1, h2, h3, h4, h5, h6, h7, h8, h9, h10, h11, h12⟩ := h
  have e1 : usub r.unclippedLength r.dataLength =
      r.unclippedLength - r.dataLength := usub_of_le _ _ (by omega)
  have e2 : usub (r.unclippedLength - r.dataLength) r.frontClippedLength =
      r.unclippedLength - r.dataLength - r.frontClippedLength :=
    usub_of_le _ _ (by omega)
  have e3 : usub (r.unclippedLength - r.dataLength)
        (r.unclippedLength - r.dataLength - r.frontClippedLength) =
      (r.unclippedLength - r.dataLength) -
        (r.unclippedLength - r.dataLength - r.frontClippedLength) :=
    usub_of_le _ _ (by omega)
  have hA : usub (usub r.unclippedLength r.dataLength) r.frontClippedLength =
      r.unclippedLength - r.dataLength - r.frontClippedLength := by
    rw [e1, e2]
  have hB : usub (usub r.unclippedLength r.dataLength)
      (r.unclippedLength - r.dataLength - r.frontClippedLength) =
      r.frontClippedLength := by
    rw [e1, e3]
    omega
  by_cases hdir : r.currentReadDirection = Direction.RC
  · obtain ⟨hds, hqs, hrcs⟩ := h11 hdir
    obtain ⟨l, hrc⟩ := Option.isSome_iff_exists.mp hrcs
    have step1 := becomeRC_of_rc r hdir
    have hdir1 : (r.becomeRC).currentReadDirection = Direction.FORWARD := by
      rw [step1]
    have hrc1 : (r.becomeRC).rcData = some l := by
      rw [step1]
      exact hrc
    have step2 := becomeRC_of_fwd_cached (r.becomeRC) hdir1 l hrc1
    rw [step2, step1]
    refine ⟨?_, ?_, ?_, ?_, by simp, ?_, by simp [hdir], by simp, by simp, by simp, by simp⟩
    · simp [Read.getDataBytes, Read.unclippedDataBytes, hds, hA, hB, h2]
    · simp [Read.getQualityBytes, Read.unclippedQualityBytes, hqs, hA, hB, h3]
    · simp [Read.unclippedDataBytes, hds]
    · simp [Read.unclippedQualityBytes, hqs]
    · simp [hA, hB]
  · have hfwd : r.currentReadDirection = Direction.FORWARD := by
      cases hd2 : r.currentReadDirection
      · rfl
      · exact absurd hd2 hdir
    obtain ⟨hds, hqs⟩ := h12 hfwd
    cases hrc : r.rcData with
    | some l =>
      have step1 := becomeRC_of_fwd_cached r hfwd l hrc
      have hdir1 : (r.becomeRC).currentReadDirection = Direction.RC := by
        rw [step1]
      have step2 := becomeRC_of_rc (r.becomeRC) hdir1
      rw [step2, step1]
      refine ⟨?_, ?_, ?_, ?_, by simp, ?_, by simp [hfwd], by simp, by simp, by simp, by simp⟩
      · by_cases hup : r.upcaseForwardRead.isSome = true <;>
          simp [Read.getDataBytes, Read.unclippedDataBytes, hds, hup, hA, hB, h2]
      · simp [Read.getQualityBytes, Read.unclippedQualityBytes, hqs, hA, hB, h3]
      · by_cases hup : r.upcaseForwardRead.isSome = true <;>
          simp [Read.unclippedDataBytes, hds, hup]
      · simp [Read.unclippedQualityBytes, hqs]
      · simp [hA, hB]
    | none =>
      have step1 := becomeRC_of_fwd_fresh r hfwd hrc
      have hdir1 : (r.becomeRC).currentReadDirection = Direction.RC := by
        rw [step1]
      have step2 := becomeRC_of_rc (r.becomeRC) hdir1
      rw [step2, step1]
      refine ⟨?_, ?_, ?_, ?_, by simp, ?_, by simp [hfwd], by simp, by simp, by simp, by simp⟩
      · by_cases hup : r.upcaseForwardRead.isSome = true <;>
          simp [Read.getDataBytes, Read.unclippedDataBytes, hds, hup, hA, hB, h2]
      · simp [Read.getQualityBytes, Read.unclippedQualityBytes, hqs, hA, hB, h3]
      · by_cases hup : r.upcaseForwardRead.isSome = true <;>
          simp [Read.unclippedDataBytes, hds, hup]
      · simp [Read.unclippedQualityBytes, hqs]
      · simp [hA, hB]

/-- Witness for C6 at a concrete read built by `init`. -/
theorem C6_becomeRC_involutive_witness :
    ((Read.init5 [] (("ACGT").toList) (("!#%&").toList)).becomeRC.becomeRC).getDataBytes =
      (Read.init5 [] (("ACGT").toList) (("!#%&").toList)).getDataBytes ∧
    ((Read.init5 [] (("ACGT").toList) (("!#%&").toList)).becomeRC.becomeRC).getQualityBytes =
      (Read.init5 [] (("ACGT").toList) (("!#%&").toList)).getQualityBytes :=
  have h := C6_becomeRC_involutive (Read.init5 [] (("ACGT").toList) (("!#%&").toList))
    (wfRead_init5 [] (("ACGT").toList) (("!#%&").toList) (by decide) (by decide))
  ⟨h.1, h.2.1⟩

end Snap